import Mathlib

/-!
Verification of the section-structure extraction pipeline of the
Pre-IPO / Special-Situation memo generator (`src/app.py`).

Python strings are modelled as lists of characters (`PyStr`); the Python
string operations used by the program (`strip`, `split`, `lower`, `join`,
regular-expression substitutions) are given executable shallow embeddings
below.  Every definition follows the corresponding source function; the
anchored regular expressions of `clean_markdown` are embedded as
left-to-right scanners with the same match semantics (leftmost match,
lazy or greedy quantifiers as written, `.` not matching a newline,
non-overlapping substitution, scan resuming after each match).
-/

set_option maxRecDepth 100000

abbrev PyStr := List Char

def pystr (s : String) : PyStr := s.data

/-- ASCII apostrophe, spliced into string constants. -/
def squote : Char := Char.ofNat 39

/-- Backtick character. -/
def btick : Char := Char.ofNat 96

/-- Python whitespace characters recognised by `str.strip` (the source data
only ever contains these ASCII whitespace characters). -/
def pyIsSpace (c : Char) : Bool :=
  c = ' ' ∨ c = '\t' ∨ c = '\n' ∨ c = '\r' ∨ c = Char.ofNat 11 ∨ c = Char.ofNat 12

/-- Python `str.lstrip()`. -/
def pyLstrip (l : PyStr) : PyStr := l.dropWhile pyIsSpace

/-- Python `str.rstrip()`: a character is kept iff it is non-whitespace
or some later character survives. -/
def pyRstrip : PyStr → PyStr
  | [] => []
  | c :: rest =>
    if pyRstrip rest = [] then (if pyIsSpace c then [] else [c])
    else c :: pyRstrip rest

/-- Python `str.strip()`. -/
def pyStrip (l : PyStr) : PyStr := pyRstrip (pyLstrip l)

/-- Python `str.lower()` (the program's data contains only ASCII letters,
for which Python lowercasing is ASCII lowercasing). -/
def pyLower (l : PyStr) : PyStr :=
  l.map (fun c => if 'A' ≤ c ∧ c ≤ 'Z' then Char.ofNat (c.toNat + 32) else c)

/-- Python `str.split(sep)` for a one-character separator. -/
def pySplit (sep : Char) : PyStr → List PyStr
  | [] => [[]]
  | c :: rest =>
    if c = sep then [] :: pySplit sep rest
    else
      match pySplit sep rest with
      | g :: gs => (c :: g) :: gs
      | [] => [[c]]

/-- Python `"\n".join(parts)`. -/
def joinNL : List PyStr → PyStr
  | [] => []
  | [g] => g
  | g :: gs => g ++ '\n' :: joinNL gs

/-- Python `text.split("\n\n")` (non-overlapping, leftmost-first). -/
def split2NL : PyStr → List PyStr
  | [] => [[]]
  | [c] => [[c]]
  | c1 :: c2 :: rest =>
    if c1 = '\n' ∧ c2 = '\n' then [] :: split2NL rest
    else
      match split2NL (c2 :: rest) with
      | g :: gs => (c1 :: g) :: gs
      | [] => [[c1]]

/-! ## The outline registry (`REPORT_TEMPLATES`, app.py lines 91-192)

Each template is the exact multi-line string of the source, including its
leading and trailing newline. -/

def spinOffTemplate : PyStr := pystr "\nTransaction Overview\nParentCo and SpinCo details\nRationale (regulatory, strategic unlock, valuation arbitrage)\nDistribution terms (ratio, eligibility, tax treatment)\nParentCo Post-Spin Outlook\nStrategic focus\nFinancial profile and valuation\nSpinCo Investment Case\nBusiness model, growth drivers\nHistorical and pro forma financials\nIndependent valuation (e.g., Sum-of-the-Parts)\nValuation Analysis\nRisks and Overhangs\nForced selling, low float, governance concerns\n"

def mnaTemplate : PyStr :=
  pystr "\nDeal Summary\nParties involved, consideration (cash/stock), premium\nRegulatory/antitrust/board approval status\nTarget Company Analysis\nValuation vs. offer\nControl premium vs. peers\nBuyer’s Rationale and Financing\nStrategic fit\nSynergies and pro forma financials\nDeal financing (debt, equity)\nShareholder Vote & Antitrust Risk\nKey holders" ++ [squote] ++ pystr " stance\nTiming and likelihood of deal closure\nSpread Analysis and Arbitrage Opportunity\nDeal spread\nIRR scenarios based on timing/risk\n"

def bankruptcyTemplate : PyStr := pystr "\nSituation Summary\nCause of distress\nFiling date, jurisdiction, DIP terms\nCapital Structure Analysis\nPre- and post-reorg structure\nSeniority waterfall\nCreditor classes and recovery potential\nValuation and Recovery Scenarios\nEstimated Enterprise Value\nRecovery per instrument (bonds, equity, unsecured)\nReorganization Plan and Exit Timeline\nConversion to equity, rights offering, warrants\nExit multiples\nCatalysts and Legal Risks\nJudge approval, creditor objections, asset sales\n"

def activistTemplate : PyStr :=
  pystr "\nActivist Background\nFund profile, history, prior campaigns\nCampaign Details\nDemands (board seat, spin, buyback, etc.)\nTimeline of engagement\nCompany" ++ [squote] ++ pystr "s Response and Governance Profile\nManagement alignment, shareholder defense\nScenario Analysis\nStatus quo vs. activist success\nProxy fight implications\nValuation Impact\nNPV of potential changes (e.g., spin-off value, ROIC uplift)\n"

def regulatoryTemplate : PyStr := pystr "\nLegal/Regulatory Background\nCase/issue summary\nHistorical legal proceedings\nOutcome Scenarios\nWin, loss, settlement\nTimeline\nFinancial and Strategic Implications\nFines, product approval, license loss\nRevenue/EBITDA impact\nMarket Reaction History (if any)\nPast similar cases\n"

def assetSalesTemplate : PyStr := pystr "\nTransaction Overview\nBuyer, price, structure\nValuation vs. book and peers\nStrategic Impact\nFocus shift, deleveraging, margin profile\nUse of Proceeds\nDebt repayment, dividends, buybacks, capex\nRe-rating Potential\nEBITDA margin uplift, return metrics\n"

def capitalRaisingTemplate : PyStr := pystr "\nTransaction Mechanics\nSize, dilution, instrument type\nCapital Structure Post-Deal\nLeverage ratios, interest burden\nShareholder Implications\nAccretion/dilution\nEPS impact\nBuyback Analysis (if applicable)\nRepurchase pace, valuation support\n"

/-- The `REPORT_TEMPLATES` dictionary: situation type name → template. -/
def REPORT_TEMPLATES : List (PyStr × PyStr) :=
  [ (pystr "Spin-Off or Split-Up", spinOffTemplate),
    (pystr "Mergers & Acquisitions", mnaTemplate),
    (pystr "Bankruptcy / Distressed / Restructuring", bankruptcyTemplate),
    (pystr "Activist Campaign", activistTemplate),
    (pystr "Regulatory or Legal Catalyst", regulatoryTemplate),
    (pystr "Asset Sales or Carve-Outs", assetSalesTemplate),
    (pystr "Capital Raising or Buyback Catalyst", capitalRaisingTemplate) ]

/-! ## The Section Splitter (`split_into_sections`, app.py lines 445-465) -/

/-- Python `line.split('(')[0]`: the prefix before the first opening
parenthesis. -/
def beforeParen (l : PyStr) : PyStr := l.takeWhile (fun c => c ≠ '(')

/-- The title list of `split_into_sections`:
`[line.split('(')[0].strip() for line in template.strip().split('\n') if line.strip()]`. -/
def titlesOf (template : PyStr) : List PyStr :=
  ((pySplit '\n' (pyStrip template)).filter (fun l => pyStrip l ≠ [])).map
    (fun l => pyStrip (beforeParen l))

/-- A text line matches the compiled pattern
`^(title1|title2|...)\s*$` (MULTILINE, IGNORECASE) exactly when, after
dropping trailing whitespace, it equals one of the titles
case-insensitively.  (`^` admits no leading whitespace on the line, and
titles are stripped, so a line with leading whitespace never matches a
non-empty title; the trailing `\s*` absorbs only whitespace.) -/
def isHeadingLine (titles : List PyStr) (l : PyStr) : Bool :=
  titles.any (fun t => pyLower (pyRstrip l) = pyLower t)

/-- The key recorded for a matched line:
`next((t for t in titles if t.lower() == title.lower()), title)` with
`title = match.group(1).strip()`, which equals the line minus its trailing
whitespace. -/
def canonicalKey (titles : List PyStr) (l : PyStr) : PyStr :=
  (titles.find? (fun t => pyLower t = pyLower (pyRstrip l))).getD (pyRstrip l)

/-- Python dict keys (insertion order). -/
def dictKeys (m : List (PyStr × PyStr)) : List PyStr := m.map Prod.fst

/-- Python dict assignment `m[k] = v`: overwrite in place if the key
exists, else append. -/
def dictInsert (m : List (PyStr × PyStr)) (k v : PyStr) : List (PyStr × PyStr) :=
  if k ∈ dictKeys m then m.map (fun e => if e.1 = k then (k, v) else e)
  else m ++ [(k, v)]

/-- The per-match loop of `split_into_sections` at line level: walk the
lines of the text; skip everything before the first heading; for each
heading, the content is the stripped newline-join of the lines up to the
next heading (or the end).  The state carries the pending canonical key
and its content lines. -/
def buildAux (titles : List PyStr) : List PyStr → Option (PyStr × List PyStr) → List (PyStr × PyStr)
  | [], none => []
  | [], some (h, acc) => [(h, pyStrip (joinNL acc))]
  | l :: rest, none =>
    if isHeadingLine titles l then buildAux titles rest (some (canonicalKey titles l, []))
    else buildAux titles rest none
  | l :: rest, some (h, acc) =>
    if isHeadingLine titles l then
      (h, pyStrip (joinNL acc)) :: buildAux titles rest (some (canonicalKey titles l, []))
    else buildAux titles rest (some (h, acc ++ [l]))

/-- `split_into_sections(text, template)` (app.py lines 445-465). -/
def split_into_sections (text template : PyStr) : List (PyStr × PyStr) :=
  let titles := titlesOf template
  if titles = [] then [(pystr "Memo", pyStrip text)]
  else
    let pairs := buildAux titles (pySplit '\n' text) none
    if pairs = [] then [(pystr "Memo", pyStrip text)]
    else pairs.foldl (fun m kv => dictInsert m kv.1 kv.2) []

example :
    split_into_sections (pystr "Deal Summary\nfoo bar\nTarget Company Analysis\nbaz")
      (pystr "Deal Summary\nTarget Company Analysis") =
    [(pystr "Deal Summary", pystr "foo bar"),
     (pystr "Target Company Analysis", pystr "baz")] := by decide

example :
    titlesOf assetSalesTemplate =
    [pystr "Transaction Overview", pystr "Buyer, price, structure",
     pystr "Valuation vs. book and peers", pystr "Strategic Impact",
     pystr "Focus shift, deleveraging, margin profile", pystr "Use of Proceeds",
     pystr "Debt repayment, dividends, buybacks, capex", pystr "Re-rating Potential",
     pystr "EBITDA margin uplift, return metrics"] := by decide

/-! ## The Document Renderer (`format_memo_docx`, app.py lines 467-500)

A rendered docx document is modelled as its list of paragraph texts, the
only view the Re-extractor reads back (`para.text` for each paragraph in
order). -/

/-- The title paragraph `f"{company_name} – {situation_type} Investment Memo"`. -/
def titleLine (company situation : PyStr) : PyStr :=
  company ++ pystr " – " ++ situation ++ pystr " Investment Memo"

/-- The paragraphs emitted for one section: the bold heading, then one
paragraph per non-blank block of `content.strip().split('\n\n')`,
each stripped. -/
def sectionParas (title content : PyStr) : List PyStr :=
  title :: (((split2NL (pyStrip content)).filter (fun p => pyStrip p ≠ [])).map pyStrip)

/-- `format_memo_docx(memo_dict, company_name, situation_type)`: the
paragraph-text stream of the document it builds (title paragraph, one
empty paragraph, then the sections in insertion order). -/
def format_memo_docx (memo : List (PyStr × PyStr)) (company situation : PyStr) : List PyStr :=
  titleLine company situation :: [] :: memo.flatMap (fun kv => sectionParas kv.1 kv.2)

/-! ## The Section Re-extractor
(`extract_sections_from_docx_for_infographic`, app.py lines 506-533) -/

/-- `expected_titles = {t.strip().lower() for t in toc.strip().splitlines() if t.strip()}`:
every non-empty line of the template, stripped and lowercased (no
parenthetical stripping here, unlike the Splitter). -/
def expectedTitles (toc : PyStr) : List PyStr :=
  (pySplit '\n' (pyStrip toc)).filterMap
    (fun t => if pyStrip t = [] then none else some (pyLower (pyStrip t)))

/-- The paragraph walk of the Re-extractor.  State: sections built so far,
the current heading (`None` initially), and the accumulated content
paragraphs.  A paragraph whose stripped text is empty is skipped; one
whose lowercased stripped text is an expected title flushes the previous
section (only if a heading is current and content is non-empty, mirroring
`if current_heading and current_text`) and becomes the new heading, keyed
by its text as found; otherwise it accumulates iff a heading is current. -/
def extractGo (expected : List PyStr) :
    List (PyStr × PyStr) → Option PyStr → List PyStr → List PyStr → List (PyStr × PyStr)
  | sections, cur, texts, [] =>
    match cur with
    | some h => if h ≠ [] ∧ texts ≠ [] then dictInsert sections h (pyStrip (joinNL texts)) else sections
    | none => sections
  | sections, cur, texts, p :: rest =>
    let t := pyStrip p
    if t = [] then extractGo expected sections cur texts rest
    else if pyLower t ∈ expected then
      let sections' :=
        match cur with
        | some h => if h ≠ [] ∧ texts ≠ [] then dictInsert sections h (pyStrip (joinNL texts)) else sections
        | none => sections
      extractGo expected sections' (some t) [] rest
    else
      match cur with
      | some h => if h ≠ [] then extractGo expected sections cur (texts ++ [t]) rest
                  else extractGo expected sections cur texts rest
      | none => extractGo expected sections cur texts rest

/-- The body of the Re-extractor for a known template. -/
def extractWithToc (toc : PyStr) (paras : List PyStr) : List (PyStr × PyStr) :=
  extractGo (expectedTitles toc) [] none [] paras

/-- `extract_sections_from_docx_for_infographic(file, situation_type)`,
with the uploaded document given by its paragraph texts.  A missing or
empty (falsy) template yields the empty map. -/
def extract_sections_from_docx_for_infographic (paras : List PyStr) (situation : PyStr) :
    List (PyStr × PyStr) :=
  match (REPORT_TEMPLATES.find? (fun kv => kv.1 = situation)).map Prod.snd with
  | none => []
  | some toc => if toc = [] then [] else extractWithToc toc paras

example :
    extractWithToc assetSalesTemplate
      [pystr "Transaction Overview", pystr "alpha", pystr "beta",
       pystr "Strategic Impact", pystr "gamma"] =
    [(pystr "Transaction Overview", pystr "alpha\nbeta"),
     (pystr "Strategic Impact", pystr "gamma")] := by decide

example :
    extract_sections_from_docx_for_infographic
      [pystr "Transaction Overview", pystr "alpha"]
      (pystr "Asset Sales or Carve-Outs") =
    [(pystr "Transaction Overview", pystr "alpha")] := by decide

example :
    format_memo_docx [(pystr "Use of Proceeds", pystr "a\n\nb")] (pystr "Acme") (pystr "T") =
    [pystr "Acme – T Investment Memo", [], pystr "Use of Proceeds", pystr "a", pystr "b"] := by
  decide

/-! ## The Markdown Normalizer (`clean_markdown`, app.py lines 279-289)

Each `re.sub` of the source is embedded as a scanner with the same
semantics.  Fixed-fuel variants keep the scanners structurally recursive;
the fuel supplied by `clean_markdown` always exceeds the number of scan
steps, and an exhausted scanner returns its input unchanged. -/

/-- A line matched by `^[ \t\-]{3,}$` (MULTILINE): three or more
characters, all of them space, tab or dash.  (This is the class the
source uses; asterisks are not in it.) -/
def isHRLine (l : PyStr) : Bool :=
  decide (3 ≤ l.length) && l.all (fun c => c = ' ' ∨ c = '\t' ∨ c = '-')

/-- `re.sub(r'^[ \t\-]{3,}$', '', text, flags=re.MULTILINE)`: the pattern
is anchored to whole lines, so it blanks exactly the matching lines. -/
def hrSub (s : PyStr) : PyStr :=
  joinNL ((pySplit '\n' s).map (fun l => if isHRLine l then [] else l))

mutual
/-- `re.sub(r'#+\s*', '', text)`: delete every maximal run of `#`s and the
whitespace run following it (consecutive matches merge `#`/whitespace
alternations, with the same net effect as this combined skipper). -/
def hashSub : PyStr → PyStr
  | [] => []
  | c :: rest => if c = '#' then hashAfter rest else c :: hashSub rest

/-- Skipping state of `hashSub` after a `#`. -/
def hashAfter : PyStr → PyStr
  | [] => []
  | c :: rest => if c = '#' ∨ pyIsSpace c then hashAfter rest else c :: hashSub rest
end

/-- For `\*\*(.*?)\*\*`: the lazy body, i.e. the chars before the first
`**` on the same line (`.` does not match a newline), with the rest after
the closing `**`. -/
def findCloseSS : PyStr → Option (PyStr × PyStr)
  | c1 :: c2 :: rest =>
    if c1 = '*' ∧ c2 = '*' then some ([], rest)
    else if c1 = '\n' then none
    else (findCloseSS (c2 :: rest)).map (fun p => (c1 :: p.1, p.2))
  | _ => none

/-- `re.sub(r'\*\*(.*?)\*\*', r'\1', text)`: at each `**`, unwrap up to
the earliest closing `**` on the same line; if none exists the match
fails and the scan advances one character. -/
def ssSubAux : Nat → PyStr → PyStr
  | 0, s => s
  | _+1, [] => []
  | f+1, c :: rest =>
    if c = '*' then
      match rest with
      | c2 :: rest2 =>
        if c2 = '*' then
          match findCloseSS rest2 with
          | some (content, r) => content ++ ssSubAux f r
          | none => '*' :: ssSubAux f rest
        else '*' :: ssSubAux f rest
      | [] => ['*']
    else c :: ssSubAux f rest

/-- For `\*(.*?)\*`: chars before the first `*` on the same line. -/
def findClose1 : PyStr → Option (PyStr × PyStr)
  | [] => none
  | c :: rest =>
    if c = '*' then some ([], rest)
    else if c = '\n' then none
    else (findClose1 rest).map (fun p => (c :: p.1, p.2))

/-- `re.sub(r'\*(.*?)\*', r'\1', text)`. -/
def sSubAux : Nat → PyStr → PyStr
  | 0, s => s
  | _+1, [] => []
  | f+1, c :: rest =>
    if c = '*' then
      match findClose1 rest with
      | some (content, r) => content ++ sSubAux f r
      | none => '*' :: sSubAux f rest
    else c :: sSubAux f rest

/-- Length of the leading backtick run and the remainder. -/
def tickRun : PyStr → Nat × PyStr
  | [] => (0, [])
  | c :: rest =>
    if c = btick then
      let p := tickRun rest
      (p.1 + 1, p.2)
    else (0, c :: rest)

/-- Chars before the first backtick on the same line, and the rest from
that backtick on. -/
def findTick : PyStr → Option (PyStr × PyStr)
  | [] => none
  | c :: rest =>
    if c = btick then some ([], c :: rest)
    else if c = '\n' then none
    else (findTick rest).map (fun p => (c :: p.1, p.2))

mutual
/-- Scanner for `` re.sub(r'`{1,3}(.*?)`{1,3}', r'\1', text) ``.  On a
backtick run the work is delegated to `btRun`. -/
def btAux : Nat → PyStr → PyStr
  | 0, s => s
  | _+1, [] => []
  | f+1, c :: rest =>
    if c = btick then
      let p := tickRun rest
      btRun f (p.1 + 1) p.2
    else c :: btAux f rest

/-- Handle a backtick run of length `k` followed by `rest` (which does not
start with a backtick).  The opener takes greedily up to 3 ticks
(backtracking to fewer on failure), the lazy body is the text up to the
first backtick on the line, and the closer takes greedily up to 3 ticks;
with `k ≥ 4` the opener takes 3 and the closer immediately consumes up to
3 of the remaining ticks around an empty body.  With `k ≤ 3` and no
backtick on the rest of the line, a run of 2 or 3 still matches with a
shorter opener and a 1-tick closer, while a single tick fails and is
emitted. -/
def btRun : Nat → Nat → PyStr → PyStr
  | 0, k, rest => List.replicate k btick ++ rest
  | f+1, k, rest =>
    if k = 0 then btAux f rest
    else if 4 ≤ k then
      if 7 ≤ k then btRun f (k - 6) rest else btAux f rest
    else
      match findTick rest with
      | some (content, rest2) =>
        let p := tickRun rest2
        content ++ (if 4 ≤ p.1 then btRun f (p.1 - 3) p.2 else btAux f p.2)
      | none => if 2 ≤ k then btAux f rest else btick :: btAux f rest
end

/-- For `!\[.*?\]\(`: skip to just past the earliest `](` on the line. -/
def findImgMid : PyStr → Option PyStr
  | c1 :: c2 :: rest =>
    if c1 = ']' ∧ c2 = '(' then some rest
    else if c1 = '\n' then none
    else findImgMid (c2 :: rest)
  | _ => none

/-- For `.*?\)`: skip to just past the earliest `)` on the line. -/
def findRPar : PyStr → Option PyStr
  | [] => none
  | c :: rest => if c = ')' then some rest else if c = '\n' then none else findRPar rest

/-- `re.sub(r'!\[.*?\]\(.*?\)', '', text)`: delete image embeds. -/
def imgAux : Nat → PyStr → PyStr
  | 0, s => s
  | _+1, [] => []
  | f+1, c :: rest =>
    if c = '!' then
      match rest with
      | c2 :: rest2 =>
        if c2 = '[' then
          match (findImgMid rest2).bind findRPar with
          | some r2 => imgAux f r2
          | none => '!' :: imgAux f rest
        else '!' :: imgAux f rest
      | [] => ['!']
    else c :: imgAux f rest

/-- For `[^\]]+`: chars before the first `]` (newlines allowed), and the
rest after that `]`. -/
def findRBrk : PyStr → Option (PyStr × PyStr)
  | [] => none
  | c :: rest =>
    if c = ']' then some ([], rest)
    else (findRBrk rest).map (fun p => (c :: p.1, p.2))

/-- For `[^\)]+`: chars before the first `)` (newlines allowed), and the
rest after that `)`. -/
def findRParSplit : PyStr → Option (PyStr × PyStr)
  | [] => none
  | c :: rest =>
    if c = ')' then some ([], rest)
    else (findRParSplit rest).map (fun p => (c :: p.1, p.2))

/-- `re.sub(r'\[([^\]]+)\]\([^\)]+\)', r'\1', text)`: unwrap links to
their display text; both bracketed parts must be non-empty, `]` must be
immediately followed by `(`, and on failure the scan advances one
character. -/
def linkAux : Nat → PyStr → PyStr
  | 0, s => s
  | _+1, [] => []
  | f+1, c :: rest =>
    if c = '[' then
      match findRBrk rest with
      | some (content, rest2) =>
        if content = [] then '[' :: linkAux f rest
        else
          match rest2 with
          | c2 :: rest3 =>
            if c2 = '(' then
              match findRParSplit rest3 with
              | some (target, rest4) =>
                if target = [] then '[' :: linkAux f rest
                else content ++ linkAux f rest4
              | none => '[' :: linkAux f rest
            else '[' :: linkAux f rest
          | [] => '[' :: linkAux f rest
      | none => '[' :: linkAux f rest
    else c :: linkAux f rest

/-- `re.sub(r'\n{3,}', '\n\n', text)`: collapse each maximal run of three
or more newlines to exactly two.  The flag records that two newlines have
just been emitted and further newlines of the run are being dropped. -/
def collapseGo : Bool → PyStr → PyStr
  | _, [] => []
  | true, c :: rest => if c = '\n' then collapseGo true rest else c :: collapseGo false rest
  | false, [c] => [c]
  | false, c :: c2 :: rest2 =>
    if c = '\n' then
      if c2 = '\n' then '\n' :: '\n' :: collapseGo true rest2
      else '\n' :: collapseGo false (c2 :: rest2)
    else c :: collapseGo false (c2 :: rest2)

def collapseNL (s : PyStr) : PyStr := collapseGo false s

/-- `re.sub(r'^- ', '• ', text, flags=re.MULTILINE)` on a single line. -/
def bulletLine : PyStr → PyStr
  | c1 :: c2 :: rest => if c1 = '-' ∧ c2 = ' ' then '•' :: ' ' :: rest else c1 :: c2 :: rest
  | l => l

def bulletSub (s : PyStr) : PyStr :=
  joinNL ((pySplit '\n' s).map bulletLine)

/-- `clean_markdown(text)` (app.py lines 279-289): the nine substitutions
in source order, then `strip()`. -/
def clean_markdown (s : PyStr) : PyStr :=
  let t1 := hrSub s
  let t2 := hashSub t1
  let t3 := ssSubAux (t2.length + 1) t2
  let t4 := sSubAux (t3.length + 1) t3
  let t5 := btAux (2 * t4.length + 2) t4
  let t6 := imgAux (t5.length + 1) t5
  let t7 := linkAux (t6.length + 1) t6
  let t8 := collapseNL t7
  let t9 := bulletSub t8
  pyStrip t9

example :
    clean_markdown
      (pystr "### Title\n**bold** and *em* and " ++ [btick] ++ pystr "code" ++ [btick]) =
    pystr "Title\nbold and em and code" := by decide

example : clean_markdown (pystr "*---*") = pystr "---" := by decide

example : clean_markdown (pystr "---") = [] := by decide

example : clean_markdown (pystr "a\n\n\n\nb\n- c") = pystr "a\n\nb\n• c" := by decide

/-! ## Peer-valuation enrichment
(`resolve_company_to_ticker` lines 232-247, `get_ev_ebitda_multiple`
lines 249-257, `fetch_fundamentals_yf` lines 260-275, `process_peers`
lines 339-344)

The external services are abstracted by an environment: for each company
name the completion service either returns a message content or raises,
and for each ticker the market-data service call has one of four
outcomes.  Python floats are modelled as rationals; a Python-level
exception is an `Except` error. -/

/-- Outcome of the FMP key-metrics HTTP call inside
`get_ev_ebitda_multiple`. -/
inductive FmpResult
  /-- `requests.get` or `r.json()` raised. -/
  | exn
  /-- JSON parsed but was not a non-empty list: the `if` is skipped and
  the function falls off its end. -/
  | noData
  /-- a non-empty list whose value could not be converted by `float`. -/
  | badValue
  /-- a non-empty list with a numeric multiple. -/
  | value (q : ℚ)

/-- Outcome of the `yf.Ticker(...).info` lookup. -/
inductive YfResult
  | exn
  | info (marketCap totalDebt cash ebitda : ℚ)

structure PeerEnv where
  resolveResp : PyStr → Except Unit PyStr
  fmpResp : PyStr → FmpResult

/-- `re.sub(r'[^A-Z\.]', '', ticker)`. -/
def sanitizeTicker (l : PyStr) : PyStr :=
  l.filter (fun c => ('A' ≤ c ∧ c ≤ 'Z') ∨ c = '.')

/-- `resolve_company_to_ticker(company_name)`: the sanitized stripped
response content, or `None` if anything in the `try` raised. -/
def resolve_company_to_ticker (env : PeerEnv) (name : PyStr) : Option PyStr :=
  match env.resolveResp name with
  | .ok content => some (sanitizeTicker (pyStrip content))
  | .error _ => none

/-- `get_ev_ebitda_multiple(ticker, fmp_key)`: `0.0` when the `try` body
raised, the numeric value on success, and Python `None` (the implicit
return) when the JSON was not a non-empty list. -/
def get_ev_ebitda_multiple (env : PeerEnv) (ticker : PyStr) : Option ℚ :=
  match env.fmpResp ticker with
  | .exn => some 0
  | .noData => none
  | .badValue => some 0
  | .value q => some q

/-- `fetch_fundamentals_yf(ticker)`: `(market_cap, net_debt, ttm_ebitda)`,
or `(0.0, 0.0, 0.0)` on any exception. -/
def fetch_fundamentals_yf : YfResult → ℚ × ℚ × ℚ
  | .exn => (0, 0, 0)
  | .info mc td cash e => (mc, td - cash, e)

/-- Python truthiness of an optional string (`None` and `""` are falsy). -/
def pyTruthy : Option PyStr → Bool
  | none => false
  | some s => s ≠ []

/-- `[n.strip() for n in raw.split(",") if n.strip()]`. -/
def peerNames (raw : PyStr) : List PyStr :=
  ((pySplit ',' raw).map pyStrip).filter (fun n => n ≠ [])

/-- Python `sum` over a list that may contain `None`: raises `TypeError`
as soon as a `None` participates, otherwise adds the floats. -/
def pySumFloats (l : List (Option ℚ)) : Except Unit ℚ :=
  if l.all Option.isSome then .ok ((l.filterMap id).sum) else .error ()

/-- Python banker's rounding to an integer. -/
def roundHalfEven (q : ℚ) : ℤ :=
  let f := ⌊q⌋
  let r := q - f
  if r < 1 / 2 then f else if 1 / 2 < r then f + 1 else if Even f then f else f + 1

/-- Python `round(x, 2)`. -/
def round2 (q : ℚ) : ℚ := (roundHalfEven (q * 100) : ℚ) / 100

/-- `process_peers(raw)` (app.py lines 339-344): names, tickers, the
multiples of the truthy tickers, and the rounded average (or `None` for
an empty multiple list).  The whole call raises (`.error`) iff `sum`
meets a `None` multiple. -/
def process_peers (env : PeerEnv) (raw : PyStr) :
    Except Unit (List PyStr × List (Option PyStr) × List (Option ℚ) × Option ℚ) :=
  let names := peerNames raw
  let tickers := names.map (resolve_company_to_ticker env)
  let mults := (tickers.filter pyTruthy).map (fun t => get_ev_ebitda_multiple env (t.getD []))
  if mults = [] then .ok (names, tickers, mults, none)
  else
    match pySumFloats mults with
    | .ok s => .ok (names, tickers, mults, some (round2 (s / (mults.length : ℚ))))
    | .error e => .error e

/-- The multiples the batch actually averages, derived directly from the
names: one entry per name whose resolution yields a truthy ticker. -/
def resolvedMultiples (env : PeerEnv) (raw : PyStr) : List (Option ℚ) :=
  (peerNames raw).filterMap (fun n =>
    match resolve_company_to_ticker env n with
    | some t => if t = [] then none else some (get_ev_ebitda_multiple env t)
    | none => none)

/-- Environment in which peers `A` and `B` resolve and fetch multiples 8
and 10, while peer `G` resolves to `CCC` but its fetch raises (sentinel
`0.0`). -/
def envZeroFetch : PeerEnv where
  resolveResp := fun n =>
    if n = ['A'] then .ok ['A', 'A', 'A']
    else if n = ['B'] then .ok ['B', 'B', 'B']
    else if n = ['G'] then .ok ['C', 'C', 'C']
    else .error ()
  fmpResp := fun t =>
    if t = ['A', 'A', 'A'] then .value 8
    else if t = ['B', 'B', 'B'] then .value 10
    else .exn

/-- Environment in which peer `G`'s ticker resolution itself fails. -/
def envUnresolved : PeerEnv where
  resolveResp := fun n =>
    if n = ['A'] then .ok ['A', 'A', 'A']
    else if n = ['B'] then .ok ['B', 'B', 'B']
    else .error ()
  fmpResp := fun t =>
    if t = ['A', 'A', 'A'] then .value 8
    else if t = ['B', 'B', 'B'] then .value 10
    else .exn

/-- Environment in which peer `G` resolves but the FMP response carries no
non-empty list, so `get_ev_ebitda_multiple` returns `None`. -/
def envNoData : PeerEnv where
  resolveResp := fun n =>
    if n = ['A'] then .ok ['A', 'A', 'A']
    else if n = ['G'] then .ok ['C', 'C', 'C']
    else .error ()
  fmpResp := fun t =>
    if t = ['A', 'A', 'A'] then .value 8
    else .noData

example :
    process_peers envUnresolved ['A', ',', 'B', ',', 'G'] =
    .ok ([['A'], ['B'], ['G']],
         [some ['A', 'A', 'A'], some ['B', 'B', 'B'], none],
         [some 8, some 10], some 9) := by
  have h : process_peers envUnresolved ['A', ',', 'B', ',', 'G'] =
      .ok ([['A'], ['B'], ['G']],
           [some ['A', 'A', 'A'], some ['B', 'B', 'B'], none],
           [some 8, some 10], some (round2 ((8 + (10 + 0)) / 2))) := by
    norm_num +decide [process_peers, peerNames, resolve_company_to_ticker,
      get_ev_ebitda_multiple, sanitizeTicker, pyTruthy, pySumFloats,
      envUnresolved, pyStrip, pyLstrip, pyRstrip, pySplit, pyIsSpace,
      List.filterMap_cons, List.sum_cons, List.sum_nil]
  rw [h]
  norm_num [round2, roundHalfEven]

example :
    process_peers envZeroFetch ['A', ',', 'B', ',', 'G'] =
    .ok ([['A'], ['B'], ['G']],
         [some ['A', 'A', 'A'], some ['B', 'B', 'B'], some ['C', 'C', 'C']],
         [some 8, some 10, some 0], some 6) := by
  have h : process_peers envZeroFetch ['A', ',', 'B', ',', 'G'] =
      .ok ([['A'], ['B'], ['G']],
           [some ['A', 'A', 'A'], some ['B', 'B', 'B'], some ['C', 'C', 'C']],
           [some 8, some 10, some 0], some (round2 ((8 + (10 + (0 + 0))) / 3))) := by
    norm_num +decide [process_peers, peerNames, resolve_company_to_ticker,
      get_ev_ebitda_multiple, sanitizeTicker, pyTruthy, pySumFloats,
      envZeroFetch, pyStrip, pyLstrip, pyRstrip, pySplit, pyIsSpace,
      List.filterMap_cons, List.sum_cons, List.sum_nil]
  rw [h]
  norm_num [round2, roundHalfEven]

example : process_peers envNoData ['A', ',', 'G'] = .error () := by
  norm_num +decide [process_peers, peerNames, resolve_company_to_ticker,
    get_ev_ebitda_multiple, sanitizeTicker, pyTruthy, pySumFloats,
    envNoData, pyStrip, pyLstrip, pyRstrip, pySplit, pyIsSpace]

/-! ## Auxiliary predicates used by the theorems -/

/-- Text contains three consecutive newlines (what `\n{3,}` matches). -/
def hasTriple : PyStr → Bool
  | c1 :: c2 :: c3 :: rest =>
    (decide (c1 = '\n') && decide (c2 = '\n') && decide (c3 = '\n')) ||
      hasTriple (c2 :: c3 :: rest)
  | _ => false

/-- Line starts with a dash-space list marker. -/
def startsDash : PyStr → Bool
  | c1 :: c2 :: _ => decide (c1 = '-') && decide (c2 = ' ')
  | _ => false

/-- Text contains a blank-line separator `"\n\n"`. -/
def hasDoubleNL : PyStr → Bool
  | c1 :: c2 :: rest => (decide (c1 = '\n') && decide (c2 = '\n')) || hasDoubleNL (c2 :: rest)
  | _ => false

/-- Conditions on a SectionMap key under which rendering emits it as a
heading paragraph the Re-extractor recognises verbatim. -/
def goodKey (expected : List PyStr) (k : PyStr) : Prop :=
  pyLower k ∈ expected ∧ pyStrip k = k ∧ k ≠ []

/-- Conditions on a SectionMap content block under which rendering emits
it as a single paragraph the Re-extractor reads back verbatim. -/
def goodContent (expected : List PyStr) (c : PyStr) : Prop :=
  pyStrip c = c ∧ c ≠ [] ∧ hasDoubleNL c = false ∧ pyLower c ∉ expected

instance (expected : List PyStr) (k : PyStr) : Decidable (goodKey expected k) := by
  unfold goodKey; infer_instance

instance (expected : List PyStr) (c : PyStr) : Decidable (goodContent expected c) := by
  unfold goodContent; infer_instance

/-- Modelled from the spec: the canonical section titles of the
"Mergers & Acquisitions" outline, "the first line of each outline entry
before any parenthetical annotation, trimmed" — the five top-level
sections, without the sub-bullet description lines. -/
def mnaCanonicalTitles : List PyStr :=
  [pystr "Deal Summary", pystr "Target Company Analysis",
   pystr "Buyer’s Rationale and Financing", pystr "Shareholder Vote & Antitrust Risk",
   pystr "Spread Analysis and Arbitrage Opportunity"]

/-- Modelled from the spec: the canonical section titles of the
"Asset Sales or Carve-Outs" outline (its four top-level sections). -/
def assetCanonicalTitles : List PyStr :=
  [pystr "Transaction Overview", pystr "Strategic Impact",
   pystr "Use of Proceeds", pystr "Re-rating Potential"]

/-! ## Lemmas about the string primitives -/

theorem dropWhile_idem (p : Char → Bool) : ∀ l : PyStr, (l.dropWhile p).dropWhile p = l.dropWhile p
  | [] => rfl
  | c :: rest => by
    by_cases h : p c
    · simp only [List.dropWhile_cons, h, if_true]
      exact dropWhile_idem p rest
    · simp [List.dropWhile_cons, h]

theorem pyLstrip_idem (l : PyStr) : pyLstrip (pyLstrip l) = pyLstrip l :=
  dropWhile_idem pyIsSpace l

theorem pyLstrip_head (l : PyStr) (c : Char) (r : PyStr) (h : pyLstrip l = c :: r) :
    pyIsSpace c = false := by
  induction l with
  | nil => simp [pyLstrip] at h
  | cons c0 rest ih =>
    by_cases h0 : pyIsSpace c0
    · exact ih (by simpa [pyLstrip, List.dropWhile_cons, h0] using h)
    · simp only [pyLstrip, List.dropWhile_cons, h0, Bool.false_eq_true, if_false] at h
      cases h
      simpa using h0

theorem pyRstrip_shape (c : Char) (rest : PyStr) :
    pyRstrip (c :: rest) = [] ∨ ∃ r, pyRstrip (c :: rest) = c :: r := by
  by_cases h : pyRstrip rest = []
  · by_cases hs : pyIsSpace c
    · left; simp [pyRstrip, h, hs]
    · right; exact ⟨[], by simp [pyRstrip, h, hs]⟩
  · right; exact ⟨pyRstrip rest, by simp [pyRstrip, h]⟩

theorem pyRstrip_idem : ∀ l : PyStr, pyRstrip (pyRstrip l) = pyRstrip l
  | [] => rfl
  | c :: rest => by
    have ih := pyRstrip_idem rest
    by_cases h : pyRstrip rest = []
    · by_cases hs : pyIsSpace c
      · simp [pyRstrip, h, hs]
      · simp [pyRstrip, h, hs]
    · have h1 : pyRstrip (c :: rest) = c :: pyRstrip rest := by simp [pyRstrip, h]
      rw [h1]
      have h2 : pyRstrip (pyRstrip rest) ≠ [] := by rw [ih]; exact h
      simp [pyRstrip, ih, h2, h]

theorem pyStrip_idem (l : PyStr) : pyStrip (pyStrip l) = pyStrip l := by
  unfold pyStrip
  rcases hw : pyLstrip l with _ | ⟨c, rest⟩
  · simp [pyRstrip, pyLstrip]
  · have hc : pyIsSpace c = false := pyLstrip_head l c rest hw
    rcases pyRstrip_shape c rest with h | ⟨r, h⟩
    · rw [h]; simp [pyLstrip, pyRstrip]
    · rw [h]
      have hl : pyLstrip (c :: r) = c :: r := by
        simp [pyLstrip, List.dropWhile_cons, hc]
      rw [hl, ← h, pyRstrip_idem]

theorem pyRstrip_eq_nil_iff : ∀ l : PyStr, pyRstrip l = [] ↔ ∀ c ∈ l, pyIsSpace c = true
  | [] => by simp [pyRstrip]
  | c :: rest => by
    have ih := pyRstrip_eq_nil_iff rest
    by_cases h : pyRstrip rest = []
    · by_cases hs : pyIsSpace c
      · simp only [pyRstrip, h, if_true, hs, List.mem_cons, if_pos]
        constructor
        · intro _ d hd
          rcases hd with rfl | hd
          · exact hs
          · exact ih.mp h d hd
        · intro _; trivial
      · have h1 : pyRstrip (c :: rest) = [c] := by simp [pyRstrip, h, hs]
        rw [h1]
        constructor
        · intro hx; cases hx
        · intro hall
          exact absurd (hall c (List.mem_cons_self c rest)) (by simp [hs])
    · have h1 : pyRstrip (c :: rest) = c :: pyRstrip rest := by simp [pyRstrip, h]
      rw [h1]
      constructor
      · intro hx; cases hx
      · intro hall
        exact absurd (ih.mpr (fun d hd => hall d (List.mem_cons_of_mem c hd))) h

theorem pyStrip_ne_nil (l : PyStr) (c : Char) (hc : c ∈ l) (hs : pyIsSpace c = false) :
    pyStrip l ≠ [] := by
  intro hnil
  unfold pyStrip at hnil
  have hall : ∀ d ∈ pyLstrip l, pyIsSpace d = true := (pyRstrip_eq_nil_iff _).mp hnil
  have hsplit : l.takeWhile pyIsSpace ++ l.dropWhile pyIsSpace = l :=
    List.takeWhile_append_dropWhile pyIsSpace l
  rw [← hsplit] at hc
  rcases List.mem_append.mp hc with h | h
  · exact absurd (List.mem_takeWhile_imp h) (by simp [hs])
  · exact absurd (hall c h) (by simp [hs])

theorem pyStrip_of_all_space (l : PyStr) (h : ∀ c ∈ l, pyIsSpace c = true) : pyStrip l = [] := by
  unfold pyStrip
  rw [pyRstrip_eq_nil_iff]
  intro c hc
  have hsplit : l.takeWhile pyIsSpace ++ l.dropWhile pyIsSpace = l :=
    List.takeWhile_append_dropWhile pyIsSpace l
  exact h c (by rw [← hsplit]; exact List.mem_append.mpr (Or.inr hc))

theorem pyStrip_nonempty_witness (l : PyStr) (h : pyStrip l = l) (hne : l ≠ []) :
    ∃ c ∈ l, pyIsSpace c = false := by
  by_contra hcon
  push_neg at hcon
  have hall : ∀ c ∈ l, pyIsSpace c = true := by
    intro c hc
    have := hcon c hc
    simpa using this
  have := pyStrip_of_all_space l hall
  rw [h] at this
  exact hne this

theorem pySplit_ne_nil (sep : Char) : ∀ s : PyStr, pySplit sep s ≠ []
  | [] => by simp [pySplit]
  | c :: rest => by
    by_cases h : c = sep
    · simp [pySplit, h]
    · simp only [pySplit, h, if_false]
      cases hg : pySplit sep rest with
      | nil => exact absurd hg (pySplit_ne_nil sep rest)
      | cons g gs => simp

theorem pySplit_cons_sep (sep : Char) (rest : PyStr) :
    pySplit sep (sep :: rest) = [] :: pySplit sep rest := by
  simp [pySplit]

theorem pySplit_cons (sep c : Char) (rest : PyStr) (h : c ≠ sep) (g : PyStr) (gs : List PyStr)
    (hg : pySplit sep rest = g :: gs) : pySplit sep (c :: rest) = (c :: g) :: gs := by
  simp [pySplit, h, hg]

theorem joinNL_pySplit : ∀ s : PyStr, joinNL (pySplit '\n' s) = s
  | [] => rfl
  | c :: rest => by
    have ih := joinNL_pySplit rest
    by_cases h : c = '\n'
    · subst h
      rw [pySplit_cons_sep]
      cases hg : pySplit '\n' rest with
      | nil => exact absurd hg (pySplit_ne_nil _ rest)
      | cons g gs =>
        rw [hg] at ih
        simpa [joinNL] using ih
    · cases hg : pySplit '\n' rest with
      | nil => exact absurd hg (pySplit_ne_nil _ rest)
      | cons g gs =>
        rw [pySplit_cons '\n' c rest h g gs hg]
        rw [hg] at ih
        cases gs with
        | nil => simpa [joinNL] using ih
        | cons g2 gs2 =>
          simp only [joinNL, List.cons_append] at ih ⊢
          rw [ih]

theorem pySplit_no_sep (sep : Char) : ∀ l : PyStr, sep ∉ l → pySplit sep l = [l]
  | [], _ => rfl
  | c :: rest, h => by
    have hc : c ≠ sep := fun hh => h (hh ▸ List.mem_cons_self c rest)
    have ih := pySplit_no_sep sep rest (fun hh => h (List.mem_cons_of_mem c hh))
    exact pySplit_cons sep c rest hc rest [] ih

theorem pySplit_append_sep (sep : Char) : ∀ (g t : PyStr), sep ∉ g →
    pySplit sep (g ++ sep :: t) = g :: pySplit sep t
  | [], t, _ => by simpa using pySplit_cons_sep sep t
  | c :: g', t, h => by
    have hc : c ≠ sep := fun hh => h (hh ▸ List.mem_cons_self c g')
    have ih := pySplit_append_sep sep g' t (fun hh => h (List.mem_cons_of_mem c hh))
    cases hx : pySplit sep t with
    | nil => exact absurd hx (pySplit_ne_nil sep t)
    | cons q qs =>
      rw [hx] at ih
      have := pySplit_cons sep c (g' ++ sep :: t) hc (g' ++ [sep] ++ t).tail []
      simp only [List.cons_append]
      rw [pySplit_cons sep c (g' ++ sep :: t) hc g' (q :: qs) ih, ← hx]

theorem pySplit_joinNL : ∀ ls : List PyStr, ls ≠ [] → (∀ l ∈ ls, '\n' ∉ l) →
    pySplit '\n' (joinNL ls) = ls
  | [], hne, _ => absurd rfl hne
  | [g], _, h => by simpa [joinNL] using pySplit_no_sep '\n' g (h g (by simp))
  | g :: g2 :: gs, _, h => by
    have ih := pySplit_joinNL (g2 :: gs) (by simp) (fun l hl => h l (List.mem_cons_of_mem g hl))
    simp only [joinNL]
    rw [pySplit_append_sep '\n' g _ (h g (List.mem_cons_self _ _)), ih]

/-! ## Lemmas about the Section Splitter -/

theorem canonicalKey_mem (l : PyStr) :
    ∀ titles : List PyStr, isHeadingLine titles l = true → canonicalKey titles l ∈ titles := by
  intro titles
  induction titles with
  | nil => simp [isHeadingLine]
  | cons t ts ih =>
    intro h
    by_cases hp : pyLower t = pyLower (pyRstrip l)
    · have : canonicalKey (t :: ts) l = t := by
        simp [canonicalKey, List.find?_cons_of_pos, hp]
      rw [this]; exact List.mem_cons_self t ts
    · have hkey : canonicalKey (t :: ts) l = canonicalKey ts l := by
        simp [canonicalKey, List.find?_cons_of_neg, hp]
      have hh : isHeadingLine ts l = true := by
        simp only [isHeadingLine, List.any_cons, Bool.or_eq_true, decide_eq_true_eq] at h
        rcases h with h | h
        · exact absurd h.symm hp
        · simpa [isHeadingLine] using h
      rw [hkey]
      exact List.mem_cons_of_mem t (ih hh)

theorem buildAux_pending_key (titles : List PyStr) :
    ∀ (lines : List PyStr) (h : PyStr) (acc : List PyStr),
      h ∈ dictKeys (buildAux titles lines (some (h, acc)))
  | [], h, acc => by simp [buildAux, dictKeys]
  | l :: rest, h, acc => by
    by_cases hl : isHeadingLine titles l = true
    · simp only [buildAux, hl, if_true, dictKeys, List.map_cons]
      exact List.mem_cons_self _ _
    · simp only [buildAux, hl, if_false]
      exact buildAux_pending_key titles rest h (acc ++ [l])

theorem buildAux_keys (titles : List PyStr) :
    ∀ (lines : List PyStr) (st : Option (PyStr × List PyStr)) (k v : PyStr),
      (k, v) ∈ buildAux titles lines st → k ∈ titles ∨ ∃ acc, st = some (k, acc)
  | [], none, k, v => by simp [buildAux]
  | [], some (h, acc), k, v => by
    simp only [buildAux, List.mem_singleton, Prod.mk.injEq]
    rintro ⟨rfl, -⟩
    exact Or.inr ⟨acc, rfl⟩
  | l :: rest, none, k, v => by
    by_cases hl : isHeadingLine titles l = true
    · simp only [buildAux, hl, if_true]
      intro hm
      rcases buildAux_keys titles rest _ k v hm with h | ⟨acc, hacc⟩
      · exact Or.inl h
      · have h1 : canonicalKey titles l = k := congrArg Prod.fst (Option.some.inj hacc)
        exact Or.inl (h1 ▸ canonicalKey_mem l titles hl)
    · simp only [buildAux, hl, if_false]
      intro hm
      rcases buildAux_keys titles rest none k v hm with h | ⟨acc, hacc⟩
      · exact Or.inl h
      · cases hacc
  | l :: rest, some (h, acc), k, v => by
    by_cases hl : isHeadingLine titles l = true
    · simp only [buildAux, hl, if_true, List.mem_cons, Prod.mk.injEq]
      rintro (⟨rfl, -⟩ | hm)
      · exact Or.inr ⟨acc, rfl⟩
      · rcases buildAux_keys titles rest _ k v hm with hk | ⟨acc2, hacc⟩
        · exact Or.inl hk
        · have hke : canonicalKey titles l = k := by cases hacc; rfl
          exact Or.inl (hke ▸ canonicalKey_mem l titles hl)
    · simp only [buildAux, hl, if_false]
      intro hm
      rcases buildAux_keys titles rest _ k v hm with hk | ⟨acc2, hacc⟩
      · exact Or.inl hk
      · have : h = k := by cases hacc; rfl
        exact Or.inr ⟨acc, by rw [this]⟩

theorem buildAux_key_complete (titles : List PyStr) :
    ∀ (lines : List PyStr) (st : Option (PyStr × List PyStr)) (l : PyStr),
      l ∈ lines → isHeadingLine titles l = true →
      canonicalKey titles l ∈ dictKeys (buildAux titles lines st)
  | [], _, l => by simp
  | l0 :: rest, st, l => by
    intro hmem hl
    rcases List.mem_cons.mp hmem with rfl | hmem
    · cases st with
      | none =>
        simp only [buildAux, hl, if_true]
        exact buildAux_pending_key titles rest _ []
      | some p =>
        obtain ⟨h, acc⟩ := p
        simp only [buildAux, hl, if_true, dictKeys, List.map_cons]
        exact List.mem_cons_of_mem _ (buildAux_pending_key titles rest _ [])
    · cases st with
      | none =>
        by_cases h0 : isHeadingLine titles l0 = true
        · simp only [buildAux, h0, if_true]
          exact buildAux_key_complete titles rest _ l hmem hl
        · simp only [buildAux, h0, if_false]
          exact buildAux_key_complete titles rest none l hmem hl
      | some p =>
        obtain ⟨h, acc⟩ := p
        by_cases h0 : isHeadingLine titles l0 = true
        · simp only [buildAux, h0, if_true, dictKeys, List.map_cons]
          exact List.mem_cons_of_mem _ (buildAux_key_complete titles rest _ l hmem hl)
        · simp only [buildAux, h0, if_false]
          exact buildAux_key_complete titles rest _ l hmem hl

theorem buildAux_ne_nil (titles : List PyStr) :
    ∀ (lines : List PyStr) (st : Option (PyStr × List PyStr)),
      ((∃ l ∈ lines, isHeadingLine titles l = true) ∨ st ≠ none) →
      buildAux titles lines st ≠ []
  | [], none => by rintro (⟨l, hl, -⟩ | hst)
                   · cases hl
                   · exact absurd rfl hst
  | [], some (h, acc) => by intro _; simp [buildAux]
  | l :: rest, st => by
    intro hyp
    by_cases hl : isHeadingLine titles l = true
    · cases st with
      | none =>
        simp only [buildAux, hl, if_true]
        exact buildAux_ne_nil titles rest _ (Or.inr (by simp))
      | some p =>
        obtain ⟨h, acc⟩ := p
        simp [buildAux, hl]
    · have hyp' : (∃ x ∈ rest, isHeadingLine titles x = true) ∨ st ≠ none := by
        rcases hyp with ⟨x, hx, hh⟩ | hst
        · rcases List.mem_cons.mp hx with rfl | hx
          · exact absurd hh hl
          · exact Or.inl ⟨x, hx, hh⟩
        · exact Or.inr hst
      cases st with
      | none =>
        simp only [buildAux, hl, if_false]
        exact buildAux_ne_nil titles rest none hyp'
      | some p =>
        obtain ⟨h, acc⟩ := p
        simp only [buildAux, hl, if_false]
        exact buildAux_ne_nil titles rest _ (Or.inr (by simp))

/-! ## Lemmas about the dict model -/

theorem dictKeys_map_replace (k : PyStr) (v : PyStr) :
    ∀ m : List (PyStr × PyStr),
      dictKeys (m.map (fun e => if e.1 = k then (k, v) else e)) = dictKeys m
  | [] => rfl
  | e :: m' => by
    by_cases h : e.1 = k
    · simp only [dictKeys, List.map_cons, h, if_true]
      have := dictKeys_map_replace k v m'
      simp only [dictKeys] at this
      simp [this, h]
    · simp only [dictKeys, List.map_cons, h, if_false]
      have := dictKeys_map_replace k v m'
      simp only [dictKeys] at this
      simp [this]

theorem dictKeys_dictInsert_mem (m : List (PyStr × PyStr)) (k v a : PyStr) :
    a ∈ dictKeys (dictInsert m k v) ↔ a ∈ dictKeys m ∨ a = k := by
  unfold dictInsert
  by_cases h : k ∈ dictKeys m
  · rw [if_pos h, dictKeys_map_replace]
    constructor
    · exact Or.inl
    · rintro (ha | rfl)
      · exact ha
      · exact h
  · rw [if_neg h]
    simp [dictKeys]

theorem mem_dictInsert_key (m : List (PyStr × PyStr)) (k v : PyStr) (kv : PyStr × PyStr)
    (h : kv ∈ dictInsert m k v) : kv.1 ∈ dictKeys m ∨ kv.1 = k := by
  unfold dictInsert at h
  by_cases hk : k ∈ dictKeys m
  · rw [if_pos hk] at h
    rcases List.mem_map.mp h with ⟨e, he, heq⟩
    by_cases h1 : e.1 = k
    · rw [if_pos h1] at heq
      right; rw [← heq]
    · rw [if_neg h1] at heq
      left; rw [← heq]; exact List.mem_map_of_mem Prod.fst he
  · rw [if_neg hk] at h
    rcases List.mem_append.mp h with h | h
    · left; exact List.mem_map_of_mem Prod.fst h
    · right; simp only [List.mem_singleton] at h; rw [h]

theorem dictInsert_of_not_mem (m : List (PyStr × PyStr)) (k v : PyStr) (h : k ∉ dictKeys m) :
    dictInsert m k v = m ++ [(k, v)] := by
  simp [dictInsert, h]

theorem fold_keys_sub :
    ∀ (pairs : List (PyStr × PyStr)) (init : List (PyStr × PyStr)) (a : PyStr),
      a ∈ dictKeys (pairs.foldl (fun m kv => dictInsert m kv.1 kv.2) init) →
      a ∈ dictKeys init ∨ ∃ v, (a, v) ∈ pairs
  | [], init, a => by simp
  | p :: ps, init, a => by
    simp only [List.foldl_cons]
    intro h
    rcases fold_keys_sub ps (dictInsert init p.1 p.2) a h with h1 | ⟨v, hv⟩
    · rcases (dictKeys_dictInsert_mem init p.1 p.2 a).mp h1 with h2 | rfl
      · exact Or.inl h2
      · exact Or.inr ⟨p.2, List.mem_cons_self p ps⟩
    · exact Or.inr ⟨v, List.mem_cons_of_mem p hv⟩

theorem fold_keys_sup :
    ∀ (pairs : List (PyStr × PyStr)) (init : List (PyStr × PyStr)) (a : PyStr),
      (a ∈ dictKeys init ∨ a ∈ dictKeys pairs) →
      a ∈ dictKeys (pairs.foldl (fun m kv => dictInsert m kv.1 kv.2) init)
  | [], init, a => by
    rintro (h | h)
    · simpa using h
    · simp [dictKeys] at h
  | p :: ps, init, a => by
    intro h
    simp only [List.foldl_cons]
    apply fold_keys_sup ps (dictInsert init p.1 p.2) a
    rcases h with h | h
    · exact Or.inl ((dictKeys_dictInsert_mem init p.1 p.2 a).mpr (Or.inl h))
    · simp only [dictKeys, List.map_cons, List.mem_cons] at h
      rcases h with rfl | h
      · exact Or.inl ((dictKeys_dictInsert_mem init p.1 p.2 p.1).mpr (Or.inr rfl))
      · exact Or.inr h

theorem buildAux_nil_of_no_heading (titles : List PyStr) :
    ∀ lines : List PyStr, (∀ l ∈ lines, isHeadingLine titles l = false) →
      buildAux titles lines none = []
  | [], _ => rfl
  | l :: rest, h => by
    have hl : isHeadingLine titles l = false := h l (List.mem_cons_self l rest)
    simp only [buildAux, hl, Bool.false_eq_true, if_false]
    exact buildAux_nil_of_no_heading titles rest (fun x hx => h x (List.mem_cons_of_mem l hx))

/-- C5: for every outline and every text in which no canonical title
occurs as a matching standalone line, `split_into_sections` returns
exactly the single-entry map `{"Memo": text.strip()}` (and, being a total
function, never fails). -/
theorem C5_split_no_match (text template : PyStr)
    (h : ∀ l ∈ pySplit '\n' text, isHeadingLine (titlesOf template) l = false) :
    split_into_sections text template = [(pystr "Memo", pyStrip text)] := by
  unfold split_into_sections
  by_cases ht : titlesOf template = []
  · simp [ht]
  · have hb : buildAux (titlesOf template) (pySplit '\n' text) none = [] :=
      buildAux_nil_of_no_heading _ _ h
    simp [ht, hb]

/-- Witness for C5 at a concrete text with no matching heading lines. -/
theorem C5_witness :
    (∀ l ∈ pySplit '\n' (pystr "hello\nworld"),
        isHeadingLine (titlesOf assetSalesTemplate) l = false) ∧
    split_into_sections (pystr "hello\nworld") assetSalesTemplate =
      [(pystr "Memo", pystr "hello\nworld")] :=
  ⟨by decide, C5_split_no_match (pystr "hello\nworld") assetSalesTemplate (by decide)⟩

/-- C4 (counterexample): the Splitter does not ignore leading whitespace
around a title: with the outline `["Deal Summary", "Target Company
Analysis"]`, the line `"  Deal Summary"` — the title surrounded by
whitespace on its standalone line — is not detected, so the claimed
detection "ignoring whitespace surrounding the title" fails. -/
theorem C4_counterexample :
    split_into_sections (pystr "  Deal Summary\nfoo bar\nTarget Company Analysis\nbaz")
        (pystr "Deal Summary\nTarget Company Analysis") =
      [(pystr "Target Company Analysis", pystr "baz")] ∧
    pystr "Deal Summary" ∉
      dictKeys (split_into_sections (pystr "  Deal Summary\nfoo bar\nTarget Company Analysis\nbaz")
        (pystr "Deal Summary\nTarget Company Analysis")) := by
  decide

/-- C4 (amended): the Splitter detects a canonical title whenever it
occurs as a standalone line that begins with the title itself —
case-insensitively, ignoring only trailing whitespace on the line
(leading whitespace defeats the match) — and the spec's scenario holds:
outline `["Deal Summary","Target Company Analysis"]` with input
`"Deal Summary\nfoo bar\nTarget Company Analysis\nbaz"` yields
`{"Deal Summary": "foo bar", "Target Company Analysis": "baz"}`. -/
theorem C4_amended :
    (∀ template text l : PyStr, l ∈ pySplit '\n' text →
        isHeadingLine (titlesOf template) l = true →
        canonicalKey (titlesOf template) l ∈ dictKeys (split_into_sections text template)) ∧
    split_into_sections (pystr "Deal Summary\nfoo bar\nTarget Company Analysis\nbaz")
        (pystr "Deal Summary\nTarget Company Analysis") =
      [(pystr "Deal Summary", pystr "foo bar"),
       (pystr "Target Company Analysis", pystr "baz")] := by
  constructor
  · intro template text l hl hh
    unfold split_into_sections
    have htit : titlesOf template ≠ [] := by
      intro h0
      rw [h0] at hh
      simp [isHeadingLine] at hh
    have hne : buildAux (titlesOf template) (pySplit '\n' text) none ≠ [] :=
      buildAux_ne_nil _ _ _ (Or.inl ⟨l, hl, hh⟩)
    simp only [htit, if_false, hne]
    exact fold_keys_sup _ [] _ (Or.inr (buildAux_key_complete _ _ none l hl hh))
  · decide

/-- Witness for the detection part of C4 at a concrete input. -/
theorem C4_witness :
    (pystr "Deal Summary" ∈ pySplit '\n' (pystr "Deal Summary\nfoo bar")) ∧
    isHeadingLine (titlesOf (pystr "Deal Summary\nTarget Company Analysis"))
        (pystr "Deal Summary") = true ∧
    canonicalKey (titlesOf (pystr "Deal Summary\nTarget Company Analysis"))
        (pystr "Deal Summary") ∈
      dictKeys (split_into_sections (pystr "Deal Summary\nfoo bar")
        (pystr "Deal Summary\nTarget Company Analysis")) :=
  ⟨by decide, by decide, C4_amended.1 _ _ _ (by decide) (by decide)⟩

/-! ## Lemmas about the Section Re-extractor -/

theorem dictKeys_exists_val (m : List (PyStr × PyStr)) (a : PyStr) (h : a ∈ dictKeys m) :
    ∃ v, (a, v) ∈ m := by
  rcases List.mem_map.mp h with ⟨e, he, heq⟩
  exact ⟨e.2, by rw [← heq]; exact he⟩

theorem extractGo_keys (expected : List PyStr) :
    ∀ (paras : List PyStr) (sections : List (PyStr × PyStr)) (cur : Option PyStr)
      (texts : List PyStr),
      (∀ kv ∈ sections, pyLower kv.1 ∈ expected) →
      (∀ h, cur = some h → pyLower h ∈ expected) →
      ∀ kv ∈ extractGo expected sections cur texts paras, pyLower kv.1 ∈ expected
  | [], sections, cur, texts => by
    intro hsec hcur kv hm
    cases cur with
    | none => exact hsec kv hm
    | some h =>
      simp only [extractGo] at hm
      by_cases hc : h ≠ [] ∧ texts ≠ []
      · rw [if_pos hc] at hm
        rcases mem_dictInsert_key _ _ _ kv hm with hk | hk
        · rcases dictKeys_exists_val sections kv.1 hk with ⟨v, hv⟩
          exact hsec (kv.1, v) hv
        · rw [hk]; exact hcur h rfl
      · rw [if_neg hc] at hm
        exact hsec kv hm
  | p :: rest, sections, cur, texts => by
    intro hsec hcur kv hm
    cases cur with
    | none =>
      simp only [extractGo] at hm
      by_cases h0 : pyStrip p = []
      · rw [if_pos h0] at hm
        exact extractGo_keys expected rest sections none texts hsec hcur kv hm
      · rw [if_neg h0] at hm
        by_cases h1 : pyLower (pyStrip p) ∈ expected
        · rw [if_pos h1] at hm
          exact extractGo_keys expected rest sections (some (pyStrip p)) [] hsec
            (fun h2 heq => by cases heq; exact h1) kv hm
        · rw [if_neg h1] at hm
          exact extractGo_keys expected rest sections none texts hsec hcur kv hm
    | some h =>
      simp only [extractGo] at hm
      by_cases h0 : pyStrip p = []
      · rw [if_pos h0] at hm
        exact extractGo_keys expected rest sections (some h) texts hsec hcur kv hm
      · rw [if_neg h0] at hm
        by_cases h1 : pyLower (pyStrip p) ∈ expected
        · rw [if_pos h1] at hm
          by_cases hc : h ≠ [] ∧ texts ≠ []
          · rw [if_pos hc] at hm
            refine extractGo_keys expected rest _ (some (pyStrip p)) [] ?_
              (fun h2 heq => by cases heq; exact h1) kv hm
            intro kv' hm'
            rcases mem_dictInsert_key _ _ _ kv' hm' with hk | hk
            · rcases dictKeys_exists_val sections kv'.1 hk with ⟨v2, hv⟩
              exact hsec (kv'.1, v2) hv
            · rw [hk]; exact hcur h rfl
          · rw [if_neg hc] at hm
            exact extractGo_keys expected rest sections (some (pyStrip p)) [] hsec
              (fun h2 heq => by cases heq; exact h1) kv hm
        · rw [if_neg h1] at hm
          by_cases hc : h ≠ []
          · rw [if_pos hc] at hm
            exact extractGo_keys expected rest sections (some h) _ hsec hcur kv hm
          · rw [if_neg hc] at hm
            exact extractGo_keys expected rest sections (some h) texts hsec hcur kv hm

/-- C3 (amended): the Splitter's keys are a subset of the code's title
list (every non-empty template line, paren-prefix, trimmed, in that
canonical casing) together with the fallback key `"Memo"`; when `"Memo"`
appears and is not itself a title, the result is exactly the fallback
map, i.e. no heading matched.  The Re-extractor's keys instead satisfy
only a case-insensitive invariant: each key lowercases into the template's
expected-title set (the key keeps the casing found in the document). -/
theorem C3_amended :
    (∀ text template k v : PyStr, (k, v) ∈ split_into_sections text template →
        k = pystr "Memo" ∨ k ∈ titlesOf template) ∧
    (∀ text template v : PyStr, (pystr "Memo", v) ∈ split_into_sections text template →
        pystr "Memo" ∈ titlesOf template ∨
        split_into_sections text template = [(pystr "Memo", pyStrip text)]) ∧
    (∀ (toc : PyStr) (paras : List PyStr) (k v : PyStr),
        (k, v) ∈ extractWithToc toc paras → pyLower k ∈ expectedTitles toc) := by
  refine ⟨?_, ?_, ?_⟩
  · intro text template k v hm
    unfold split_into_sections at hm
    by_cases ht : titlesOf template = []
    · rw [if_pos ht] at hm
      simp only [List.mem_singleton, Prod.mk.injEq] at hm
      exact Or.inl hm.1
    · rw [if_neg ht] at hm
      by_cases hp : buildAux (titlesOf template) (pySplit '\n' text) none = []
      · rw [if_pos hp] at hm
        simp only [List.mem_singleton, Prod.mk.injEq] at hm
        exact Or.inl hm.1
      · rw [if_neg hp] at hm
        have hk : k ∈ dictKeys ((buildAux (titlesOf template) (pySplit '\n' text) none).foldl
            (fun m kv => dictInsert m kv.1 kv.2) []) := List.mem_map_of_mem Prod.fst hm
        rcases fold_keys_sub _ [] k hk with h0 | ⟨v', hv'⟩
        · simp [dictKeys] at h0
        · rcases buildAux_keys _ _ _ _ _ hv' with h1 | ⟨acc, hacc⟩
          · exact Or.inr h1
          · cases hacc
  · intro text template v hm
    unfold split_into_sections at hm
    by_cases ht : titlesOf template = []
    · right; unfold split_into_sections; rw [if_pos ht]
    · rw [if_neg ht] at hm
      by_cases hp : buildAux (titlesOf template) (pySplit '\n' text) none = []
      · right; unfold split_into_sections; rw [if_neg ht]; simp only [hp, if_pos]
      · rw [if_neg hp] at hm
        left
        have hk : pystr "Memo" ∈
            dictKeys ((buildAux (titlesOf template) (pySplit '\n' text) none).foldl
              (fun m kv => dictInsert m kv.1 kv.2) []) := List.mem_map_of_mem Prod.fst hm
        rcases fold_keys_sub _ [] _ hk with h0 | ⟨v', hv'⟩
        · simp [dictKeys] at h0
        · rcases buildAux_keys _ _ _ _ _ hv' with h1 | ⟨acc, hacc⟩
          · exact h1
          · cases hacc
  · intro toc paras k v hm
    exact extractGo_keys (expectedTitles toc) paras [] none [] (by simp)
      (by intro h heq; cases heq) (k, v) hm

/-- C3 (counterexample): the Re-extractor keys a section by the heading
text as found in the document, not in the outline's canonical casing: an
all-lowercase heading paragraph produces the all-lowercase key, which is
neither a canonically-cased title nor `"Memo"`. -/
theorem C3_counterexample :
    extractWithToc assetSalesTemplate [pystr "transaction overview", pystr "body"] =
      [(pystr "transaction overview", pystr "body")] ∧
    pystr "transaction overview" ∉ titlesOf assetSalesTemplate ∧
    pystr "transaction overview" ≠ pystr "Memo" := by
  decide

/-- Witness for the Re-extractor invariant of C3 at a concrete input. -/
theorem C3_witness :
    ((pystr "Transaction Overview", pystr "alpha") ∈
      extractWithToc assetSalesTemplate [pystr "Transaction Overview", pystr "alpha"]) ∧
    pyLower (pystr "Transaction Overview") ∈ expectedTitles assetSalesTemplate :=
  ⟨by decide, C3_amended.2.2 assetSalesTemplate [pystr "Transaction Overview", pystr "alpha"]
    (pystr "Transaction Overview") (pystr "alpha") (by decide)⟩

/-- C1 (counterexample): sub-bullet description lines of a template are
treated as extractable boundaries by both extractors.  For the
"Mergers & Acquisitions" outline, the sub-bullet line
`"Parties involved, consideration (cash/stock), premium"` is not one of
the canonical section titles, yet its paren-stripped prefix is in the
Splitter's boundary set and splits a text, and the full line is a
Re-extractor boundary. -/
theorem C1_counterexample :
    pystr "Parties involved, consideration" ∉ mnaCanonicalTitles ∧
    pystr "Parties involved, consideration" ∈ titlesOf mnaTemplate ∧
    split_into_sections (pystr "Parties involved, consideration\nxyz") mnaTemplate =
      [(pystr "Parties involved, consideration", pystr "xyz")] ∧
    extractWithToc mnaTemplate
      [pystr "Parties involved, consideration (cash/stock), premium", pystr "body"] =
      [(pystr "Parties involved, consideration (cash/stock), premium", pystr "body")] := by
  decide

/-- C1 (amended): for every template, every non-empty line — top-level
title or sub-bullet hint — contributes a boundary to both extractors:
its paren-stripped trimmed prefix is in the Splitter's title list, and
its trimmed lowercased full text is in the Re-extractor's expected-title
set.  Concretely, for "Capital Raising or Buyback Catalyst" the two
boundary sets are all nine template lines, with
`"Buyback Analysis (if applicable)"` contributing `"Buyback Analysis"`
to the Splitter but its full lowercased line to the Re-extractor. -/
theorem C1_amended :
    (∀ template l : PyStr, l ∈ pySplit '\n' (pyStrip template) → pyStrip l ≠ [] →
        pyStrip (beforeParen l) ∈ titlesOf template ∧
        pyLower (pyStrip l) ∈ expectedTitles template) ∧
    titlesOf capitalRaisingTemplate =
      [pystr "Transaction Mechanics", pystr "Size, dilution, instrument type",
       pystr "Capital Structure Post-Deal", pystr "Leverage ratios, interest burden",
       pystr "Shareholder Implications", pystr "Accretion/dilution", pystr "EPS impact",
       pystr "Buyback Analysis", pystr "Repurchase pace, valuation support"] ∧
    expectedTitles capitalRaisingTemplate =
      [pystr "transaction mechanics", pystr "size, dilution, instrument type",
       pystr "capital structure post-deal", pystr "leverage ratios, interest burden",
       pystr "shareholder implications", pystr "accretion/dilution", pystr "eps impact",
       pystr "buyback analysis (if applicable)", pystr "repurchase pace, valuation support"] := by
  refine ⟨?_, by decide, by decide⟩
  intro template l hl hne
  constructor
  · unfold titlesOf
    refine List.mem_map_of_mem _ (List.mem_filter.mpr ⟨hl, ?_⟩)
    simpa using hne
  · unfold expectedTitles
    exact List.mem_filterMap.mpr ⟨l, hl, by rw [if_neg hne]⟩

/-- Witness for the boundary-contribution part of C1. -/
theorem C1_witness :
    (pystr "Buyback Analysis (if applicable)" ∈ pySplit '\n' (pyStrip capitalRaisingTemplate)) ∧
    pyStrip (beforeParen (pystr "Buyback Analysis (if applicable)")) ∈
      titlesOf capitalRaisingTemplate ∧
    pyLower (pyStrip (pystr "Buyback Analysis (if applicable)")) ∈
      expectedTitles capitalRaisingTemplate :=
  ⟨by decide,
   (C1_amended.1 capitalRaisingTemplate (pystr "Buyback Analysis (if applicable)")
     (by decide) (by decide)).1,
   (C1_amended.1 capitalRaisingTemplate (pystr "Buyback Analysis (if applicable)")
     (by decide) (by decide)).2⟩

/-! ## Lemmas for C10: headings need following content -/

theorem mem_dictInsert_val (m : List (PyStr × PyStr)) (k v : PyStr) (kv : PyStr × PyStr)
    (h : kv ∈ dictInsert m k v) : kv ∈ m ∨ kv.2 = v := by
  unfold dictInsert at h
  by_cases hk : k ∈ dictKeys m
  · rw [if_pos hk] at h
    rcases List.mem_map.mp h with ⟨e, he, heq⟩
    by_cases h1 : e.1 = k
    · rw [if_pos h1] at heq
      right; rw [← heq]
    · rw [if_neg h1] at heq
      left; rw [← heq]; exact he
  · rw [if_neg hk] at h
    rcases List.mem_append.mp h with h | h
    · exact Or.inl h
    · right; simp only [List.mem_singleton] at h; rw [h]

theorem flush_value_ne_nil (texts : List PyStr) (hne : texts ≠ [])
    (hinv : ∀ t ∈ texts, pyStrip t = t ∧ t ≠ []) : pyStrip (joinNL texts) ≠ [] := by
  obtain ⟨t, ts, rfl⟩ := List.exists_cons_of_ne_nil hne
  obtain ⟨hs, hn⟩ := hinv t (List.mem_cons_self _ _)
  obtain ⟨c, hc, hcs⟩ := pyStrip_nonempty_witness t hs hn
  apply pyStrip_ne_nil _ c _ hcs
  cases ts with
  | nil => simpa [joinNL] using hc
  | cons t2 ts2 =>
    simp only [joinNL]
    exact List.mem_append.mpr (Or.inl hc)

theorem extractGo_values (expected : List PyStr) :
    ∀ (paras : List PyStr) (sections : List (PyStr × PyStr)) (cur : Option PyStr)
      (texts : List PyStr),
      (∀ kv ∈ sections, kv.2 ≠ []) →
      (∀ t ∈ texts, pyStrip t = t ∧ t ≠ []) →
      ∀ kv ∈ extractGo expected sections cur texts paras, kv.2 ≠ []
  | [], sections, cur, texts => by
    intro hsec htex kv hm
    cases cur with
    | none => exact hsec kv hm
    | some h =>
      simp only [extractGo] at hm
      by_cases hc : h ≠ [] ∧ texts ≠ []
      · rw [if_pos hc] at hm
        rcases mem_dictInsert_val _ _ _ kv hm with hk | hk
        · exact hsec kv hk
        · rw [hk]; exact flush_value_ne_nil texts hc.2 htex
      · rw [if_neg hc] at hm
        exact hsec kv hm
  | p :: rest, sections, cur, texts => by
    intro hsec htex kv hm
    cases cur with
    | none =>
      simp only [extractGo] at hm
      by_cases h0 : pyStrip p = []
      · rw [if_pos h0] at hm
        exact extractGo_values expected rest sections none texts hsec htex kv hm
      · rw [if_neg h0] at hm
        by_cases h1 : pyLower (pyStrip p) ∈ expected
        · rw [if_pos h1] at hm
          exact extractGo_values expected rest sections (some (pyStrip p)) [] hsec
            (by simp) kv hm
        · rw [if_neg h1] at hm
          exact extractGo_values expected rest sections none texts hsec htex kv hm
    | some h =>
      simp only [extractGo] at hm
      by_cases h0 : pyStrip p = []
      · rw [if_pos h0] at hm
        exact extractGo_values expected rest sections (some h) texts hsec htex kv hm
      · rw [if_neg h0] at hm
        by_cases h1 : pyLower (pyStrip p) ∈ expected
        · rw [if_pos h1] at hm
          by_cases hc : h ≠ [] ∧ texts ≠ []
          · rw [if_pos hc] at hm
            refine extractGo_values expected rest _ (some (pyStrip p)) [] ?_ (by simp) kv hm
            intro kv' hm'
            rcases mem_dictInsert_val _ _ _ kv' hm' with hk | hk
            · exact hsec kv' hk
            · rw [hk]; exact flush_value_ne_nil texts hc.2 htex
          · rw [if_neg hc] at hm
            exact extractGo_values expected rest sections (some (pyStrip p)) [] hsec
              (by simp) kv hm
        · rw [if_neg h1] at hm
          by_cases hc : h ≠ []
          · rw [if_pos hc] at hm
            refine extractGo_values expected rest sections (some h) _ hsec ?_ kv hm
            intro t ht
            rcases List.mem_append.mp ht with ht | ht
            · exact htex t ht
            · simp only [List.mem_singleton] at ht
              exact ht ▸ ⟨pyStrip_idem p, h0⟩
          · rw [if_neg hc] at hm
            exact extractGo_values expected rest sections (some h) texts hsec htex kv hm

/-- C10: in the Re-extractor a heading becomes a key only if at least one
non-empty paragraph follows it before the next heading or the end of the
document (every produced value is a non-empty string), and a matched
heading immediately followed by another matched heading is silently
omitted, as in the concrete run where "Transaction Overview" is directly
followed by the heading "Strategic Impact" and disappears from the
result. -/
theorem C10_heading_needs_content :
    (∀ (toc : PyStr) (paras : List PyStr) (k v : PyStr),
        (k, v) ∈ extractWithToc toc paras → v ≠ []) ∧
    extractWithToc assetSalesTemplate
        [pystr "Transaction Overview", pystr "Strategic Impact", pystr "body"] =
      [(pystr "Strategic Impact", pystr "body")] := by
  constructor
  · intro toc paras k v hm
    exact extractGo_values (expectedTitles toc) paras [] none [] (by simp) (by simp) (k, v) hm
  · decide

/-- Witness for the value-nonemptiness part of C10. -/
theorem C10_witness :
    ((pystr "Strategic Impact", pystr "body") ∈
      extractWithToc assetSalesTemplate
        [pystr "Transaction Overview", pystr "Strategic Impact", pystr "body"]) ∧
    pystr "body" ≠ [] :=
  ⟨by decide,
   C10_heading_needs_content.1 assetSalesTemplate
     [pystr "Transaction Overview", pystr "Strategic Impact", pystr "body"]
     (pystr "Strategic Impact") (pystr "body") (by decide)⟩

/-! ## Lemmas for C2: render / re-extract round trip -/

theorem split2NL_single : ∀ c : PyStr, hasDoubleNL c = false → split2NL c = [c]
  | [], _ => rfl
  | [a], _ => rfl
  | a :: b :: rest, h => by
    simp only [hasDoubleNL, Bool.or_eq_false_iff, Bool.and_eq_false_iff,
      decide_eq_false_iff_not] at h
    have hno : ¬(a = '\n' ∧ b = '\n') := by
      intro ⟨ha, hb⟩
      rcases h.1 with hx | hx
      · exact hx ha
      · exact hx hb
    have htail : hasDoubleNL (b :: rest) = false := h.2
    simp only [split2NL, hno, if_false]
    rw [split2NL_single (b :: rest) htail]

theorem sectionParas_eq (expected : List PyStr) (k c : PyStr) (hc : goodContent expected c) :
    sectionParas k c = [k, c] := by
  obtain ⟨hs, hn, hd, -⟩ := hc
  unfold sectionParas
  rw [hs, split2NL_single c hd]
  simp [hs, hn]

theorem extractGo_sections (expected : List PyStr) :
    ∀ (M : List (PyStr × PyStr)) (done : List (PyStr × PyStr)) (kp cp : PyStr),
      (∀ kv ∈ M, goodKey expected kv.1 ∧ goodContent expected kv.2) →
      goodKey expected kp → goodContent expected cp →
      (dictKeys done ++ kp :: M.map Prod.fst).Nodup →
      extractGo expected done (some kp) [cp]
          (M.flatMap (fun kv => sectionParas kv.1 kv.2)) =
        (done ++ [(kp, cp)]) ++ M
  | [], done, kp, cp => by
    intro hM hk hc hnd
    have hnotin : kp ∉ dictKeys done := by
      intro hin
      exact (List.nodup_append.mp hnd).2.2 hin (List.mem_cons_self kp _)
    rw [List.flatMap_nil]
    simp only [extractGo]
    rw [if_pos (show kp ≠ [] ∧ [cp] ≠ ([] : List PyStr) from ⟨hk.2.2, by simp⟩)]
    rw [show pyStrip (joinNL [cp]) = cp by simp [joinNL, hc.1]]
    rw [dictInsert_of_not_mem done kp cp hnotin, List.append_nil]
  | (k2, c2) :: M', done, kp, cp => by
    intro hM hk hc hnd
    have hnotin : kp ∉ dictKeys done := by
      intro hin
      exact (List.nodup_append.mp hnd).2.2 hin (List.mem_cons_self kp _)
    obtain ⟨hk2, hc2⟩ := hM (k2, c2) (List.mem_cons_self _ _)
    rw [List.flatMap_cons, sectionParas_eq expected k2 c2 hc2]
    simp only [List.cons_append, List.nil_append]
    simp only [extractGo]
    rw [if_neg (show ¬pyStrip k2 = [] by rw [hk2.2.1]; exact hk2.2.2)]
    rw [if_pos (show pyLower (pyStrip k2) ∈ expected by rw [hk2.2.1]; exact hk2.1)]
    rw [if_pos (show kp ≠ [] ∧ [cp] ≠ ([] : List PyStr) from ⟨hk.2.2, by simp⟩)]
    rw [show pyStrip (joinNL [cp]) = cp by simp [joinNL, hc.1]]
    rw [dictInsert_of_not_mem done kp cp hnotin]
    rw [if_neg (show ¬pyStrip c2 = [] by rw [hc2.1]; exact hc2.2.1)]
    rw [if_neg (show ¬pyLower (pyStrip c2) ∈ expected by rw [hc2.1]; exact hc2.2.2.2)]
    rw [if_pos (show pyStrip k2 ≠ [] by rw [hk2.2.1]; exact hk2.2.2)]
    rw [hk2.2.1, hc2.1]
    have hnd' : (dictKeys (done ++ [(kp, cp)]) ++ k2 :: M'.map Prod.fst).Nodup := by
      have heq : dictKeys (done ++ [(kp, cp)]) ++ k2 :: M'.map Prod.fst =
          dictKeys done ++ kp :: k2 :: M'.map Prod.fst := by
        simp [dictKeys]
      rw [heq]
      simpa [List.map_cons] using hnd
    have ih := extractGo_sections expected M' (done ++ [(kp, cp)]) k2 c2
      (fun kv hkv => hM kv (List.mem_cons_of_mem _ hkv)) hk2 hc2 hnd'
    rw [show ([] : List PyStr) ++ [c2] = [c2] by simp]
    rw [ih]
    simp [List.append_assoc]

theorem extractGo_top (expected : List PyStr) :
    ∀ (M : List (PyStr × PyStr)) (done : List (PyStr × PyStr)),
      (∀ kv ∈ M, goodKey expected kv.1 ∧ goodContent expected kv.2) →
      (dictKeys done ++ M.map Prod.fst).Nodup →
      extractGo expected done none [] (M.flatMap (fun kv => sectionParas kv.1 kv.2)) =
        done ++ M
  | [], done => by
    intro _ _
    rw [List.flatMap_nil]
    simp [extractGo]
  | (k2, c2) :: M', done => by
    intro hM hnd
    obtain ⟨hk2, hc2⟩ := hM (k2, c2) (List.mem_cons_self _ _)
    rw [List.flatMap_cons, sectionParas_eq expected k2 c2 hc2]
    simp only [List.cons_append, List.nil_append]
    simp only [extractGo]
    rw [if_neg (show ¬pyStrip k2 = [] by rw [hk2.2.1]; exact hk2.2.2)]
    rw [if_pos (show pyLower (pyStrip k2) ∈ expected by rw [hk2.2.1]; exact hk2.1)]
    rw [if_neg (show ¬pyStrip c2 = [] by rw [hc2.1]; exact hc2.2.1)]
    rw [if_neg (show ¬pyLower (pyStrip c2) ∈ expected by rw [hc2.1]; exact hc2.2.2.2)]
    rw [if_pos (show pyStrip k2 ≠ [] by rw [hk2.2.1]; exact hk2.2.2)]
    rw [hk2.2.1, hc2.1]
    rw [show ([] : List PyStr) ++ [c2] = [c2] by simp]
    have ih := extractGo_sections expected M' done k2 c2
      (fun kv hkv => hM kv (List.mem_cons_of_mem _ hkv)) hk2 hc2
      (by simpa [List.map_cons] using hnd)
    rw [ih]
    simp [List.append_assoc]

/-- C2 (amended): re-extraction of a rendered document reproduces the
SectionMap exactly, provided each key is a trimmed non-empty string whose
lowercase is in the template's expected-title set, the keys are distinct,
each content block is a trimmed non-empty string containing no blank-line
separator and not itself matching an expected title, and the document's
title paragraph does not match an expected title.  (The counterexample
shows why the no-blank-line condition is needed: render splits content on
`"\n\n"` and the Re-extractor rejoins paragraphs with a single newline.) -/
theorem C2_amended (toc company situation : PyStr) (M : List (PyStr × PyStr))
    (hM : ∀ kv ∈ M, goodKey (expectedTitles toc) kv.1 ∧ goodContent (expectedTitles toc) kv.2)
    (hnd : (M.map Prod.fst).Nodup)
    (ht : pyLower (pyStrip (titleLine company situation)) ∉ expectedTitles toc) :
    extractWithToc toc (format_memo_docx M company situation) = M := by
  unfold extractWithToc format_memo_docx
  simp only [extractGo]
  by_cases h0 : pyStrip (titleLine company situation) = []
  · rw [if_pos h0]
    rw [if_pos (show pyStrip ([] : PyStr) = [] from rfl)]
    exact extractGo_top _ M [] hM (by simpa [dictKeys] using hnd)
  · rw [if_neg h0, if_neg ht]
    rw [if_pos (show pyStrip ([] : PyStr) = [] from rfl)]
    exact extractGo_top _ M [] hM (by simpa [dictKeys] using hnd)

/-- C2 (counterexample): with keys exactly the canonical titles of the
"Asset Sales or Carve-Outs" outline and contents containing no paragraph
equal (case-insensitively) to any title, the round trip still fails to
reproduce the map: the two-paragraph content `"a\n\nb"` is rendered as
two paragraphs and re-extracted as `"a\nb"`. -/
theorem C2_counterexample :
    ([(pystr "Transaction Overview", pystr "a\n\nb"), (pystr "Strategic Impact", pystr "x"),
      (pystr "Use of Proceeds", pystr "y"), (pystr "Re-rating Potential", pystr "z")].map
        Prod.fst = assetCanonicalTitles) ∧
    (∀ kv ∈ [(pystr "Transaction Overview", pystr "a\n\nb"),
             (pystr "Strategic Impact", pystr "x"), (pystr "Use of Proceeds", pystr "y"),
             (pystr "Re-rating Potential", pystr "z")],
      ∀ p ∈ split2NL (pyStrip kv.2), ∀ t ∈ assetCanonicalTitles,
        pyLower (pyStrip p) ≠ pyLower t) ∧
    extractWithToc assetSalesTemplate
        (format_memo_docx
          [(pystr "Transaction Overview", pystr "a\n\nb"), (pystr "Strategic Impact", pystr "x"),
           (pystr "Use of Proceeds", pystr "y"), (pystr "Re-rating Potential", pystr "z")]
          (pystr "AcmeCo") (pystr "Asset Sales or Carve-Outs")) =
      [(pystr "Transaction Overview", pystr "a\nb"), (pystr "Strategic Impact", pystr "x"),
       (pystr "Use of Proceeds", pystr "y"), (pystr "Re-rating Potential", pystr "z")] ∧
    pystr "a\nb" ≠ pystr "a\n\nb" := by
  decide

/-- Witness for C2 with all four canonical keys in scrambled order. -/
theorem C2_witness :
    (∀ kv ∈ [(pystr "Use of Proceeds", pystr "y"), (pystr "Transaction Overview", pystr "a"),
             (pystr "Strategic Impact", pystr "x"), (pystr "Re-rating Potential", pystr "z")],
        goodKey (expectedTitles assetSalesTemplate) kv.1 ∧
        goodContent (expectedTitles assetSalesTemplate) kv.2) ∧
    extractWithToc assetSalesTemplate
        (format_memo_docx
          [(pystr "Use of Proceeds", pystr "y"), (pystr "Transaction Overview", pystr "a"),
           (pystr "Strategic Impact", pystr "x"), (pystr "Re-rating Potential", pystr "z")]
          (pystr "AcmeCo") (pystr "Asset Sales or Carve-Outs")) =
      [(pystr "Use of Proceeds", pystr "y"), (pystr "Transaction Overview", pystr "a"),
       (pystr "Strategic Impact", pystr "x"), (pystr "Re-rating Potential", pystr "z")] :=
  ⟨by decide,
   C2_amended assetSalesTemplate (pystr "AcmeCo") (pystr "Asset Sales or Carve-Outs")
     [(pystr "Use of Proceeds", pystr "y"), (pystr "Transaction Overview", pystr "a"),
      (pystr "Strategic Impact", pystr "x"), (pystr "Re-rating Potential", pystr "z")]
     (by decide) (by decide) (by decide)⟩

/-! ## Lemmas for C6: fixed points of the Markdown Normalizer -/

theorem hrSub_id (y : PyStr) (h : ∀ l ∈ pySplit '\n' y, isHRLine l = false) : hrSub y = y := by
  unfold hrSub
  have h2 : (pySplit '\n' y).map (fun l => if isHRLine l then [] else l) =
      (pySplit '\n' y).map id :=
    List.map_congr_left (fun l hl => by simp [h l hl])
  rw [h2, List.map_id, joinNL_pySplit]

theorem hashSub_id : ∀ y : PyStr, '#' ∉ y → hashSub y = y
  | [] => fun _ => rfl
  | c :: rest => fun h => by
    have hc : c ≠ '#' := fun hh => h (hh ▸ List.mem_cons_self c rest)
    simp only [hashSub, hc, if_false]
    rw [hashSub_id rest (fun hh => h (List.mem_cons_of_mem c hh))]

theorem ssSubAux_id : ∀ (f : Nat) (y : PyStr), '*' ∉ y → ssSubAux f y = y
  | 0, _ => fun _ => rfl
  | _ + 1, [] => fun _ => rfl
  | f + 1, c :: rest => fun h => by
    have hc : c ≠ '*' := fun hh => h (hh ▸ List.mem_cons_self c rest)
    simp only [ssSubAux, hc, if_false]
    rw [ssSubAux_id f rest (fun hh => h (List.mem_cons_of_mem c hh))]

theorem sSubAux_id : ∀ (f : Nat) (y : PyStr), '*' ∉ y → sSubAux f y = y
  | 0, _ => fun _ => rfl
  | _ + 1, [] => fun _ => rfl
  | f + 1, c :: rest => fun h => by
    have hc : c ≠ '*' := fun hh => h (hh ▸ List.mem_cons_self c rest)
    simp only [sSubAux, hc, if_false]
    rw [sSubAux_id f rest (fun hh => h (List.mem_cons_of_mem c hh))]

theorem btAux_id : ∀ (f : Nat) (y : PyStr), btick ∉ y → btAux f y = y
  | 0, _ => fun _ => rfl
  | _ + 1, [] => fun _ => rfl
  | f + 1, c :: rest => fun h => by
    have hc : c ≠ btick := fun hh => h (hh ▸ List.mem_cons_self c rest)
    simp only [btAux, hc, if_false]
    rw [btAux_id f rest (fun hh => h (List.mem_cons_of_mem c hh))]

theorem imgAux_id : ∀ (f : Nat) (y : PyStr), '[' ∉ y → imgAux f y = y
  | 0, _ => fun _ => rfl
  | _ + 1, [] => fun _ => rfl
  | f + 1, c :: rest => fun h => by
    by_cases hc : c = '!'
    · subst hc
      cases rest with
      | nil => simp [imgAux]
      | cons c2 rest2 =>
        have hc2 : c2 ≠ '[' :=
          fun hh => h (hh ▸ List.mem_cons_of_mem _ (List.mem_cons_self c2 rest2))
        simp only [imgAux, if_pos rfl, hc2, if_false]
        rw [imgAux_id f (c2 :: rest2) (fun hh => h (List.mem_cons_of_mem _ hh))]
        simp
    · simp only [imgAux, hc, if_false]
      rw [imgAux_id f rest (fun hh => h (List.mem_cons_of_mem c hh))]

theorem linkAux_id : ∀ (f : Nat) (y : PyStr), '[' ∉ y → linkAux f y = y
  | 0, _ => fun _ => rfl
  | _ + 1, [] => fun _ => rfl
  | f + 1, c :: rest => fun h => by
    have hc : c ≠ '[' := fun hh => h (hh ▸ List.mem_cons_self c rest)
    simp only [linkAux, hc, if_false]
    rw [linkAux_id f rest (fun hh => h (List.mem_cons_of_mem c hh))]

theorem hasTriple_tail (c : Char) (y : PyStr) (h : hasTriple (c :: y) = false) :
    hasTriple y = false := by
  match y with
  | [] => rfl
  | [a] => rfl
  | a :: b :: r =>
    simp only [hasTriple, Bool.or_eq_false_iff] at h
    exact h.2

theorem collapseGo_id : ∀ y : PyStr, hasTriple y = false →
    collapseGo false y = y ∧ (y.head? ≠ some '\n' → collapseGo true y = y)
  | [] => fun _ => ⟨rfl, fun _ => rfl⟩
  | [c] => fun _ => by
    refine ⟨rfl, fun hh => ?_⟩
    have hc : c ≠ '\n' := by simpa using hh
    simp [collapseGo, hc]
  | a :: b :: rest => fun h => by
    have htail : hasTriple (b :: rest) = false := hasTriple_tail a _ h
    have htail2 : hasTriple rest = false := hasTriple_tail b _ htail
    by_cases ha : a = '\n'
    · subst ha
      by_cases hb : b = '\n'
      · subst hb
        have hrest : rest.head? ≠ some '\n' := by
          cases rest with
          | nil => simp
          | cons c3 r3 =>
            intro heq
            have hc3 : c3 = '\n' := by simpa using heq
            rw [hc3] at h
            simp [hasTriple] at h
        have hr := (collapseGo_id rest htail2).2 hrest
        constructor
        · simp [collapseGo, hr]
        · intro hh; simp at hh
      · have hb' := (collapseGo_id (b :: rest) htail).1
        constructor
        · simp [collapseGo, hb, hb']
        · intro hh; simp at hh
    · have hb' := (collapseGo_id (b :: rest) htail).1
      constructor
      · simp [collapseGo, ha, hb']
      · intro _
        simp [collapseGo, ha, hb']

theorem bulletLine_id (l : PyStr) (h : startsDash l = false) : bulletLine l = l := by
  match l with
  | [] => rfl
  | [c] => rfl
  | c1 :: c2 :: rest =>
    simp only [startsDash, Bool.and_eq_false_iff, decide_eq_false_iff_not] at h
    simp only [bulletLine]
    rw [if_neg (show ¬(c1 = '-' ∧ c2 = ' ') from fun hcon => by
      rcases h with h | h
      exacts [h hcon.1, h hcon.2])]

theorem bulletSub_id (y : PyStr) (h : ∀ l ∈ pySplit '\n' y, startsDash l = false) :
    bulletSub y = y := by
  unfold bulletSub
  have h2 : (pySplit '\n' y).map bulletLine = (pySplit '\n' y).map id :=
    List.map_congr_left (fun l hl => bulletLine_id l (h l hl))
  rw [h2, List.map_id, joinNL_pySplit]

theorem pyStrip_clean_markdown (x : PyStr) : pyStrip (clean_markdown x) = clean_markdown x := by
  simp only [clean_markdown]
  exact pyStrip_idem _

theorem clean_markdown_fixed (y : PyStr)
    (h1 : '#' ∉ y) (h2 : '*' ∉ y) (h3 : btick ∉ y) (h4 : '[' ∉ y)
    (h5 : ∀ l ∈ pySplit '\n' y, isHRLine l = false)
    (h6 : hasTriple y = false)
    (h7 : ∀ l ∈ pySplit '\n' y, startsDash l = false)
    (h8 : pyStrip y = y) :
    clean_markdown y = y := by
  simp only [clean_markdown]
  rw [hrSub_id y h5, hashSub_id y h1, ssSubAux_id (y.length + 1) y h2,
      sSubAux_id (y.length + 1) y h2, btAux_id (2 * y.length + 2) y h3,
      imgAux_id (y.length + 1) y h4, linkAux_id (y.length + 1) y h4,
      show collapseNL y = y from (collapseGo_id y h6).1, bulletSub_id y h7, h8]

/-- C6 (counterexample): the Markdown Normalizer is not idempotent.  On
`"*---*"` the first pass unwraps the emphasis markers, exposing the line
`"---"`; the horizontal-rule pre-pass has already run, so the second pass
removes it: `normalize("*---*") = "---"` but
`normalize(normalize("*---*")) = ""`. -/
theorem C6_counterexample :
    clean_markdown (clean_markdown (pystr "*---*")) ≠ clean_markdown (pystr "*---*") ∧
    clean_markdown (pystr "*---*") = pystr "---" ∧
    clean_markdown (pystr "---") = [] := by
  decide

/-- C6 (amended): the Normalizer is idempotent only on inputs whose first
pass leaves no markdown artifact for a second pass to consume: whenever
`normalize x` contains no `#`, `*`, backtick or `[` character, no
horizontal-rule line (3+ space/tab/dash characters), no run of three
newlines, and no line starting `"- "`, then
`normalize (normalize x) = normalize x`.  In general idempotence fails
(see the counterexample). -/
theorem C6_amended (x : PyStr)
    (h1 : '#' ∉ clean_markdown x) (h2 : '*' ∉ clean_markdown x)
    (h3 : btick ∉ clean_markdown x) (h4 : '[' ∉ clean_markdown x)
    (h5 : ∀ l ∈ pySplit '\n' (clean_markdown x), isHRLine l = false)
    (h6 : hasTriple (clean_markdown x) = false)
    (h7 : ∀ l ∈ pySplit '\n' (clean_markdown x), startsDash l = false) :
    clean_markdown (clean_markdown x) = clean_markdown x :=
  clean_markdown_fixed (clean_markdown x) h1 h2 h3 h4 h5 h6 h7 (pyStrip_clean_markdown x)

/-- Witness for C6 on a concrete markdown input. -/
theorem C6_witness :
    clean_markdown (pystr "# Hello\nworld") = pystr "Hello\nworld" ∧
    clean_markdown (clean_markdown (pystr "# Hello\nworld")) =
      clean_markdown (pystr "# Hello\nworld") :=
  ⟨by decide, C6_amended (pystr "# Hello\nworld") (by decide) (by decide) (by decide)
    (by decide) (by decide) (by decide) (by decide)⟩

/-- C7 (counterexample): the pre-pass character class is `[ \t\-]` —
space, tab, dash — not dash/asterisk/space as claimed: a standalone line
of three asterisks is not removed by the pre-pass (nor by the whole
normalizer, which leaves a single asterisk behind). -/
theorem C7_counterexample :
    hrSub (pystr "a\n***\nb") = pystr "a\n***\nb" ∧
    isHRLine (pystr "***") = false ∧
    clean_markdown (pystr "a\n***\nb") = pystr "a\n*\nb" := by
  decide

/-- C7 (amended): the pre-pass (the first substitution of the normalizer)
removes every standalone line consisting solely of 3 or more space, tab
or dash characters — asterisk lines are not in the class.  Stated over a
text assembled from newline-free lines: the pre-pass maps each matching
line to the empty line and keeps every other line. -/
theorem C7_amended (ls : List PyStr) (hne : ls ≠ []) (hnl : ∀ l ∈ ls, '\n' ∉ l) :
    hrSub (joinNL ls) = joinNL (ls.map (fun l => if isHRLine l then [] else l)) ∧
    ∀ l ∈ ls, 3 ≤ l.length → (∀ c ∈ l, c = ' ' ∨ c = '\t' ∨ c = '-') →
      isHRLine l = true := by
  constructor
  · unfold hrSub
    rw [pySplit_joinNL ls hne hnl]
  · intro l _ hlen hcls
    unfold isHRLine
    rw [Bool.and_eq_true, List.all_eq_true]
    exact ⟨by simpa using hlen, fun c hc => by simpa using hcls c hc⟩

/-- Witness for C7: a dash line is removed, a text line kept. -/
theorem C7_witness :
    hrSub (joinNL [pystr "x", pystr "---"]) =
      joinNL ([pystr "x", pystr "---"].map (fun l => if isHRLine l then [] else l)) ∧
    isHRLine (pystr "---") = true :=
  ⟨(C7_amended [pystr "x", pystr "---"] (by decide) (by decide)).1,
   (C7_amended [pystr "x", pystr "---"] (by decide) (by decide)).2
     (pystr "---") (by decide) (by decide) (by decide)⟩

/-! ## Lemmas for C8/C9: peer averaging -/

theorem mults_eq_aux (env : PeerEnv) : ∀ ns : List PyStr,
    ((ns.map (resolve_company_to_ticker env)).filter pyTruthy).map
      (fun t => get_ev_ebitda_multiple env (t.getD [])) =
    ns.filterMap (fun n =>
      match resolve_company_to_ticker env n with
      | some t => if t = [] then none else some (get_ev_ebitda_multiple env t)
      | none => none)
  | [] => rfl
  | n :: ns => by
    have ih := mults_eq_aux env ns
    cases hr : resolve_company_to_ticker env n with
    | none =>
      simp only [List.map_cons, hr, List.filter_cons, List.filterMap_cons]
      simpa [pyTruthy] using ih
    | some t =>
      by_cases ht : t = []
      · subst ht
        simp only [List.map_cons, hr, List.filter_cons, List.filterMap_cons]
        simpa [pyTruthy] using ih
      · simp only [List.map_cons, hr, List.filter_cons, List.filterMap_cons]
        simpa [pyTruthy, ht] using ih

theorem filterMap_id_all_some : ∀ l : List (Option ℚ), (∀ m ∈ l, m ≠ none) →
    (l.filterMap id).length = l.length ∧ l.all Option.isSome = true
  | [] => fun _ => ⟨rfl, rfl⟩
  | m :: l => fun h => by
    cases m with
    | none => exact absurd rfl (h none (List.mem_cons_self _ _))
    | some q =>
      have ih := filterMap_id_all_some l (fun x hx => h x (List.mem_cons_of_mem _ hx))
      constructor
      · simp [List.filterMap_cons, ih.1]
      · simp [List.all_cons, ih.2]

/-- C8 (amended): when every resolved ticker's multiple fetch yields a
float, the reported average is the arithmetic mean of the multiples of
ALL truthily-resolved tickers — zero values included in both numerator
and denominator (only unresolved names are excluded) — rounded to two
decimals, and `None` exactly when no ticker resolved. -/
theorem C8_amended (env : PeerEnv) (raw : PyStr)
    (h : ∀ m ∈ resolvedMultiples env raw, m ≠ none) :
    process_peers env raw =
      .ok (peerNames raw, (peerNames raw).map (resolve_company_to_ticker env),
        resolvedMultiples env raw,
        if resolvedMultiples env raw = [] then none
        else some (round2 (((resolvedMultiples env raw).filterMap id).sum /
          (((resolvedMultiples env raw).filterMap id).length : ℚ)))) := by
  simp only [process_peers]
  have hm : (((peerNames raw).map (resolve_company_to_ticker env)).filter pyTruthy).map
      (fun t => get_ev_ebitda_multiple env (t.getD [])) = resolvedMultiples env raw :=
    (mults_eq_aux env (peerNames raw)).trans rfl
  rw [hm]
  by_cases he : resolvedMultiples env raw = []
  · rw [if_pos he, if_pos he]
  · obtain ⟨hlen, hall⟩ := filterMap_id_all_some _ h
    rw [if_neg he, if_neg he]
    unfold pySumFloats
    rw [if_pos hall, hlen]

/-- Witness for C8 in the environment where two of three peers resolve
with multiples 8 and 10 and the third fails resolution. -/
theorem C8_witness :
    (∀ m ∈ resolvedMultiples envUnresolved ['A', ',', 'B', ',', 'G'], m ≠ none) ∧
    process_peers envUnresolved ['A', ',', 'B', ',', 'G'] =
      .ok (peerNames ['A', ',', 'B', ',', 'G'],
        (peerNames ['A', ',', 'B', ',', 'G']).map (resolve_company_to_ticker envUnresolved),
        resolvedMultiples envUnresolved ['A', ',', 'B', ',', 'G'],
        if resolvedMultiples envUnresolved ['A', ',', 'B', ',', 'G'] = [] then none
        else some (round2
          (((resolvedMultiples envUnresolved ['A', ',', 'B', ',', 'G']).filterMap id).sum /
           (((resolvedMultiples envUnresolved
               ['A', ',', 'B', ',', 'G']).filterMap id).length : ℚ)))) :=
  ⟨by decide, C8_amended envUnresolved ['A', ',', 'B', ',', 'G'] (by decide)⟩

/-- C8 (counterexample): a resolved peer whose multiple fetch fails
contributes the sentinel `0.0` to the average: with fetched multiples
`[8, 10, 0]` the code reports `6.0`, whereas the claimed zero-excluding
mean of `[8, 10]` is `9.0`. -/
theorem C8_counterexample :
    process_peers envZeroFetch ['A', ',', 'B', ',', 'G'] =
      .ok ([['A'], ['B'], ['G']],
           [some ['A', 'A', 'A'], some ['B', 'B', 'B'], some ['C', 'C', 'C']],
           [some 8, some 10, some 0], some 6) ∧
    round2 ((8 + 10) / 2) = 9 ∧ (6 : ℚ) ≠ 9 := by
  refine ⟨?_, by norm_num [round2, roundHalfEven], by norm_num⟩
  have h : process_peers envZeroFetch ['A', ',', 'B', ',', 'G'] =
      .ok ([['A'], ['B'], ['G']],
           [some ['A', 'A', 'A'], some ['B', 'B', 'B'], some ['C', 'C', 'C']],
           [some 8, some 10, some 0], some (round2 ((8 + (10 + (0 + 0))) / 3))) := by
    norm_num +decide [process_peers, peerNames, resolve_company_to_ticker,
      get_ev_ebitda_multiple, sanitizeTicker, pyTruthy, pySumFloats,
      envZeroFetch, pyStrip, pyLstrip, pyRstrip, pySplit, pyIsSpace,
      List.filterMap_cons, List.sum_cons, List.sum_nil]
  rw [h]
  norm_num [round2, roundHalfEven]

/-- C9: the lookups are individually total — resolution failure yields
`None`, a fundamentals exception yields `(0.0, 0.0, 0.0)`, a
multiple-fetch exception yields `0.0` — but when the FMP response is not
a non-empty list the multiple fetch returns Python `None` (falling off
the function's end, contradicting its `-> float` annotation), and that
`None` makes `sum(mults)` in `process_peers` raise a `TypeError`: one
peer's lookup failure aborts the whole valuation batch. -/
theorem C9_nodata_aborts_batch :
    resolve_company_to_ticker envNoData ['X'] = none ∧
    get_ev_ebitda_multiple envZeroFetch ['C', 'C', 'C'] = some 0 ∧
    fetch_fundamentals_yf .exn = (0, 0, 0) ∧
    get_ev_ebitda_multiple envNoData ['C', 'C', 'C'] = none ∧
    process_peers envNoData ['A', ',', 'G'] = .error () := by
  refine ⟨rfl, rfl, rfl, rfl, ?_⟩
  norm_num +decide [process_peers, peerNames, resolve_company_to_ticker,
    get_ev_ebitda_multiple, sanitizeTicker, pyTruthy, pySumFloats,
    envNoData, pyStrip, pyLstrip, pyRstrip, pySplit, pyIsSpace]
